import Mathlib

/-!
Custom-Jukebox-Music: track-to-disc assignment and pack assembly.

A shallow embedding of `script.js`, with the properties of its assignment engine
(`assignDiscsOptimal`), pack assembler (`crearMod`), upload handler
(`handleOggUpload`), session state (`AppState`) and preview remove button.

Modelling conventions:

* A duration measured by the browser is an IEEE double.  Here a successfully probed,
  finite duration is an exact rational number, and a probe that fires the `error`
  event is `none`; the rounding of floating-point subtraction is not modelled.
  Canonical disc durations are the integers of the table.
* `Array.prototype.sort` is stable, so its result under a consistent comparator is the
  unique stable sorted permutation; it is computed here by insertion sort.
* `null`, `undefined`, `NaN` and `Infinity` are `none` in the respective `Option`.
* A `File` is its name and its bytes; an archive is the list of its file entries.
* An object URL is a natural number; `URL.createObjectURL` returns a number never
  returned before.  Array indices are natural numbers.
-/

namespace Jukebox

/-! ## Constants -/

/-- The array literal `DISCO_NAMES`. -/
def DISCO_NAMES : List String :=
  ["13", "cat", "blocks", "chirp", "far", "mall", "mellohi", "stal", "strad", "ward",
   "11", "wait", "otherside", "5", "pigstep", "relic", "creator", "creator_music_box",
   "precipice", "tears", "lava_chicken"]

/-- The constant `MAX_FILES = DISCO_NAMES.length`. -/
def MAX_FILES : Nat := DISCO_NAMES.length

/-- The object literal `DISCO_DURATIONS`, property by property as it is written. -/
def DISCO_DURATIONS_LITERAL : List (String × Nat) :=
  [("13", 178), ("cat", 185), ("blocks", 345), ("chirp", 185), ("far", 174),
   ("mall", 197), ("mellohi", 96), ("stal", 150), ("strad", 188), ("ward", 251),
   ("11", 71), ("wait", 237), ("otherside", 195), ("5", 178), ("pigstep", 148),
   ("relic", 219), ("creator", 176), ("creator_music_box", 73), ("precipice", 299),
   ("tears", 175), ("lava_chicken", 135)]

/-- Numeric value of a string of decimal digits. -/
def digitsValue (cs : List Char) : Nat :=
  cs.foldl (fun acc c => 10 * acc + (c.toNat - 48)) 0

/-- A property key is an array index when it is the canonical decimal form of an
integer below `2^32 - 1`; such keys are enumerated first, in ascending numeric order. -/
def arrayIndex? (key : String) : Option Nat :=
  let cs := key.data
  if cs.isEmpty then none
  else if !cs.all Char.isDigit then none
  else if cs.head? == some '0' && cs.length != 1 then none
  else if digitsValue cs < 2 ^ 32 - 1 then some (digitsValue cs) else none

/-- Own property order of an object literal with distinct keys, as `Object.entries`
lists it: array-index keys ascending, then the remaining string keys in the order
in which they were written. -/
def objectEntries (literal : List (String × Nat)) : List (String × Nat) :=
  let indexed := literal.filterMap (fun kv => (arrayIndex? kv.1).map (fun n => (n, kv)))
  let ordered := indexed.insertionSort (fun a b => a.1 ≤ b.1)
  ordered.map Prod.snd ++ literal.filter (fun kv => (arrayIndex? kv.1).isNone)

/-- Property read `DISCO_DURATIONS[name]`; `none` is `undefined`. -/
def DISCO_DURATIONS (name : String) : Option Nat :=
  (DISCO_DURATIONS_LITERAL.find? (fun kv => kv.1 == name)).map Prod.snd

/-! ## Data -/

/-- A user file: its name and its raw bytes. -/
structure File where
  name : String
  bytes : List Nat
deriving DecidableEq, Repr

/-- One entry `{ name, duration }` of `availableDiscs`. -/
structure Disc where
  name : String
  duration : Nat
deriving DecidableEq, Repr

/-- One entry `{ file, duration }` of `fileDurations`. -/
structure FileDuration where
  file : File
  duration : ℚ
deriving DecidableEq

/-- One pushed assignment.  `discDuration` is the property read
`DISCO_DURATIONS[bestDisc]` (`none` is `undefined`); `difference` is `bestDiff`
(`none` is `Infinity`). -/
structure Assignment where
  file : File
  disc : String
  userDuration : ℚ
  discDuration : Option Nat
  difference : Option ℚ
deriving DecidableEq

/-- The two loop variables `bestDisc` (`none` is `null`) and `bestDiff`
(`none` is `Infinity`). -/
structure Best where
  bestDisc : Option String
  bestDiff : Option ℚ
deriving DecidableEq

/-- The state of the outer loop: `assignments` and the set `usedDiscs`. -/
structure LoopState where
  assignments : List Assignment
  usedDiscs : List String
deriving DecidableEq

/-! ## Disc assignment -/

/-- Stable sort with comparator `(a, b) => b.duration - a.duration`: descending by
duration, equal durations keep their order. -/
def sortByDurationDesc (fds : List FileDuration) : List FileDuration :=
  fds.insertionSort (fun a b => b.duration ≤ a.duration)

/-- The list `availableDiscs`: `Object.entries(DISCO_DURATIONS)` mapped to discs and
sorted stably with comparator `(a, b) => b.duration - a.duration`. -/
def availableDiscs : List Disc :=
  ((objectEntries DISCO_DURATIONS_LITERAL).map (fun kv => Disc.mk kv.1 kv.2)).insertionSort
    (fun a b => b.duration ≤ a.duration)

/-- The test `diff < bestDiff`, where `bestDiff` may be `Infinity`. -/
def diffLt (diff : ℚ) (bestDiff : Option ℚ) : Bool :=
  match bestDiff with
  | none => true
  | some b => decide (diff < b)

/-- Truthiness of `bestDisc`: `null` and the empty string are falsy. -/
def truthy (bestDisc : Option String) : Bool :=
  match bestDisc with
  | none => false
  | some s => s != ""

/-- The value `Math.abs(disc.duration - fileData.duration)`. -/
def absDiff (disc : Disc) (duration : ℚ) : ℚ := |(disc.duration : ℚ) - duration|

/-- Body of the first inner loop (lines 221-230). -/
def passAStep (usedDiscs : List String) (duration : ℚ) (best : Best) (disc : Disc) : Best :=
  if usedDiscs.contains disc.name then best
  else
    let diff := absDiff disc duration
    if decide (duration ≤ (disc.duration : ℚ)) && diffLt diff best.bestDiff then
      { bestDisc := some disc.name, bestDiff := some diff }
    else best

/-- Body of the second inner loop (lines 233-241). -/
def passBStep (usedDiscs : List String) (duration : ℚ) (best : Best) (disc : Disc) : Best :=
  if usedDiscs.contains disc.name then best
  else
    let diff := absDiff disc duration
    if diffLt diff best.bestDiff then
      { bestDisc := some disc.name, bestDiff := some diff }
    else best

/-- The search for `bestDisc` for one file: the first loop, then, when `bestDisc`
is still falsy, the second loop. -/
def chooseDisc (discs : List Disc) (usedDiscs : List String) (duration : ℚ) : Best :=
  let afterA := discs.foldl (passAStep usedDiscs duration) { bestDisc := none, bestDiff := none }
  if !truthy afterA.bestDisc then discs.foldl (passBStep usedDiscs duration) afterA
  else afterA

/-- One iteration of the outer loop (lines 217-254). -/
def assignStep (discs : List Disc) (st : LoopState) (fileData : FileDuration) : LoopState :=
  let best := chooseDisc discs st.usedDiscs fileData.duration
  match best.bestDisc with
  | some bestDisc =>
    if truthy (some bestDisc) then
      { assignments := st.assignments ++
          [{ file := fileData.file, disc := bestDisc, userDuration := fileData.duration,
             discDuration := DISCO_DURATIONS bestDisc, difference := best.bestDiff }],
        usedDiscs := if st.usedDiscs.contains bestDisc then st.usedDiscs
                     else st.usedDiscs ++ [bestDisc] }
    else st
  | none => st

/-- The outer loop run over a list of files with resolved durations. -/
def assignLoop (discs : List Disc) (fds : List FileDuration) (st : LoopState) : LoopState :=
  fds.foldl (assignStep discs) st

/-- The synchronous part of `assignDiscsOptimal`, after `Promise.all` has resolved. -/
def assignResolved (fileDurations : List FileDuration) : List Assignment :=
  (assignLoop availableDiscs (sortByDurationDesc fileDurations)
    { assignments := [], usedDiscs := [] }).assignments

/-- The join `Promise.all(files.map(...))`: every probe resolved gives the list of
`{ file, duration }` in input order; one rejected probe rejects the whole. -/
def probeAll (getAudioDuration : File → Option ℚ) (files : List File) :
    Option (List FileDuration) :=
  files.mapM (fun file => (getAudioDuration file).map (fun d => FileDuration.mk file d))

/-- The function `assignDiscsOptimal(files)`; `none` is a rejected promise. -/
def assignDiscsOptimal (getAudioDuration : File → Option ℚ) (files : List File) :
    Option (List Assignment) :=
  (probeAll getAudioDuration files).map assignResolved

/-- Common shape of the two inner loop bodies. -/
def scanStep (elig : Disc → Bool) (usedDiscs : List String) (duration : ℚ) (best : Best)
    (disc : Disc) : Best :=
  if usedDiscs.contains disc.name then best
  else if elig disc && diffLt (absDiff disc duration) best.bestDiff then
    { bestDisc := some disc.name, bestDiff := some (absDiff disc duration) }
  else best

/-- Invariant of the outer loop: `usedDiscs` lists the discs of the assignments made so
far, without repetition, and they are catalog names. -/
def LoopInv (discs : List Disc) (st : LoopState) : Prop :=
  st.usedDiscs = st.assignments.map Assignment.disc ∧ st.usedDiscs.Nodup ∧
    ∀ n ∈ st.usedDiscs, n ∈ discs.map Disc.name

/-- Worked example: 25 distinct tracks, named "A.ogg" to "Y.ogg". -/
def twentyFiveTracks : List File :=
  (List.range 25).map (fun i => File.mk (String.mk [Char.ofNat (65 + i), '.', 'o', 'g', 'g']) [i])

/-! ## Pack assembly (`crearMod`) -/

/-- The JavaScript expression `x || d` for a number `x`, where `none` is `NaN`: the
falsy numbers `NaN` and `0` give `d`. -/
def orDefault (x : Option Int) (d : Int) : Int :=
  match x with
  | none => d
  | some v => if v = 0 then d else v

/-- The expression `Math.max(0, Math.min(99, x))`. -/
def clampVersion (x : Int) : Int := max 0 (min 99 x)

/-- The array `version` of lines 719-726.  The arguments are the results of `parseInt`
on the three version fields; `none` is `NaN` (a blank or non-numeric field). -/
def packVersion (major minor patch : Option Int) : List Int :=
  [clampVersion (orDefault major 1), clampVersion (orDefault minor 0),
   clampVersion (orDefault patch 0)]

/-- The `header` object of the manifest. -/
structure Header where
  uuid : String
  name : String
  version : List Int
  description : String
  min_engine_version : List Nat
deriving DecidableEq

/-- One element of the `modules` array of the manifest. -/
structure Module where
  description : String
  version : List Int
  uuid : String
  type : String
deriving DecidableEq

/-- The object passed to `JSON.stringify` for `manifest.json`. -/
structure Manifest where
  format_version : Nat
  header : Header
  modules : List Module
deriving DecidableEq

/-- Content of an archive entry: a byte buffer, or the JSON text of a manifest. -/
inductive Content where
  | buffer (bytes : List Nat)
  | json (manifest : Manifest)
deriving DecidableEq

/-- The file entries of a `JSZip` archive, path and content, in insertion order.
Directory entries are not represented. -/
abbrev Zip := List (String × Content)

/-- The call `zip.file(path, data)`: sets the entry at `path`, replacing the content of
an entry already stored under that path. -/
def zipFile (zip : Zip) (path : String) (data : Content) : Zip :=
  if zip.any (fun e => e.1 == path) then
    zip.map (fun e => if e.1 == path then (path, data) else e)
  else zip ++ [(path, data)]

/-- Root of the folder object `zip.folder("sounds/music/game/records")`. -/
def recordsFolder : String := "sounds/music/game/records/"

/-- Path written by `soundsFolder.file(disc + ".ogg", buffer)`. -/
def soundPath (disc : String) : String := recordsFolder ++ (disc ++ ".ogg")

/-- Whether a path lies under the records folder. -/
def inRecordsFolder (path : String) : Bool := recordsFolder.data.isPrefixOf path.data

/-- The loop of lines 733-736: each assignment's file bytes go to the path of its disc. -/
def writeSounds (zip : Zip) (assignments : List Assignment) : Zip :=
  assignments.foldl (fun z a => zipFile z (soundPath a.disc) (Content.buffer a.file.bytes)) zip

/-- The manifest object of lines 801-816. -/
def buildManifest (name description : String) (version : List Int) (uuid1 uuid2 : String) :
    Manifest :=
  { format_version := 2,
    header := { uuid := uuid1, name := name, version := version, description := description,
                min_engine_version := [1, 21, 0] },
    modules := [{ description := description, version := version, uuid := uuid2,
                  type := "resources" }] }

/-- The archive built inside the `try` block of `crearMod`; `none` is an exception,
caught by the handler that shows the error message, so that nothing is downloaded.
`currentFiles` is `state.currentFiles`; `name` and `description` are the values of
lines 716-717; `major`, `minor`, `patch` are the `parseInt` results (`none` is `NaN`);
`iconBuffer` is the outcome of the icon block (`none` is `null`); `uuid1` and `uuid2` are
the two results of `crypto.randomUUID()`. -/
def crearMod (getAudioDuration : File → Option ℚ) (currentFiles : List File)
    (name description : String) (major minor patch : Option Int)
    (iconBuffer : Option (List Nat)) (uuid1 uuid2 : String) : Option Zip :=
  if currentFiles.length = 0 then none
  else
    let version := packVersion major minor patch
    match assignDiscsOptimal getAudioDuration currentFiles with
    | none => none
    | some assignments =>
      let zip := writeSounds [] assignments
      let zip := match iconBuffer with
        | some buf => zipFile zip "pack_icon.png" (Content.buffer buf)
        | none => zip
      some (zipFile zip "manifest.json"
        (Content.json (buildManifest name description version uuid1 uuid2)))

/-- The entries the icon step contributes: one entry when `iconBuffer` is not `null`. -/
def iconEntries (iconBuffer : Option (List Nat)) : Zip :=
  match iconBuffer with
  | some buf => [("pack_icon.png", Content.buffer buf)]
  | none => []

/-- The manifest stored in an archive, read back from its `manifest.json` entry. -/
def manifestOf (zip : Zip) : Option Manifest :=
  match zip.find? (fun e => e.1 == "manifest.json") with
  | some (_, Content.json m) => some m
  | _ => none

/-! ## Icon cover fit -/

/-- The five numbers computed on lines 777-781. -/
structure CoverFit where
  scale : ℚ
  scaledWidth : ℚ
  scaledHeight : ℚ
  offsetX : ℚ
  offsetY : ℚ
deriving DecidableEq

/-- The constant `TARGET_SIZE`. -/
def TARGET_SIZE : ℚ := 1080

/-- Lines 777-781 for an image of the given pixel width and height. -/
def coverFit (width height : Nat) : CoverFit :=
  let scale := max (TARGET_SIZE / (width : ℚ)) (TARGET_SIZE / (height : ℚ))
  let scaledWidth := (width : ℚ) * scale
  let scaledHeight := (height : ℚ) * scale
  { scale := scale, scaledWidth := scaledWidth, scaledHeight := scaledHeight,
    offsetX := (TARGET_SIZE - scaledWidth) / 2,
    offsetY := (TARGET_SIZE - scaledHeight) / 2 }

/-! ## File list -/

/-- The part of the page state the upload handler touches: `state.currentFiles`, the
assignments shown in the preview list, and whether the error message was shown. -/
structure PageState where
  currentFiles : List File
  previewList : List Assignment
  errorShown : Bool
deriving DecidableEq

/-- The call `array.slice(0, end)` for an integer `end`; a negative `end` counts from
the end of the array. -/
def sliceTo {α : Type} (l : List α) (stop : Int) : List α :=
  if stop < 0 then l.take (max ((l.length : Int) + stop) 0).toNat
  else l.take stop.toNat

/-- The function `updateFileList`: an empty track list clears the preview; otherwise the
preview shows the assignments, or nothing and the error message when
`assignDiscsOptimal` rejects. -/
def updateFileList (getAudioDuration : File → Option ℚ) (st : PageState) : PageState :=
  if st.currentFiles.length = 0 then { st with previewList := [] }
  else
    match assignDiscsOptimal getAudioDuration st.currentFiles with
    | some assignments => { st with previewList := assignments }
    | none => { st with previewList := [], errorShown := true }

/-- The files `handleOggUpload` adds to `state.currentFiles`: those of the selection
whose name is not already present, cut to the remaining number of slots. -/
def acceptedFiles (currentFiles selected : List File) : List File :=
  let newFiles := selected.filter
    (fun newFile => !currentFiles.any (fun f => f.name == newFile.name))
  let remainingSlots : Int := (MAX_FILES : Int) - (currentFiles.length : Int)
  if (newFiles.length : Int) > remainingSlots then sliceTo newFiles remainingSlots
  else newFiles

/-- The handler `handleOggUpload` for a selection of files. -/
def handleOggUpload (getAudioDuration : File → Option ℚ) (st : PageState)
    (selected : List File) : PageState :=
  updateFileList getAudioDuration
    { st with currentFiles := st.currentFiles ++ acceptedFiles st.currentFiles selected }

/-! ## Session state (`AppState`) -/

/-- What an object URL was created for: a track file (through `getOrCreateAudioUrl`) or
the icon file (through `setSelectedIcon`). -/
inductive Asset (α : Type) where
  | track (file : α)
  | icon (file : α)
deriving DecidableEq

/-- The object URLs created through `AppState`.  `URL.createObjectURL` returns the handle
`next`, never returned before; `live` holds the handles not yet revoked, each with the
asset it was created for; `released` logs every `URL.revokeObjectURL` call. -/
structure UrlStore (α : Type) where
  next : Nat
  live : List (Nat × Asset α)
  released : List Nat

/-- The call `URL.createObjectURL(blob)` for the given asset: the handle and the new
store. -/
def UrlStore.create {α : Type} (s : UrlStore α) (a : Asset α) : Nat × UrlStore α :=
  (s.next, { next := s.next + 1, live := s.live ++ [(s.next, a)], released := s.released })

/-- The call `URL.revokeObjectURL(url)`. -/
def UrlStore.revoke {α : Type} (s : UrlStore α) (url : Nat) : UrlStore α :=
  { next := s.next, live := s.live.filter (fun e => decide (e.1 ≠ url)),
    released := s.released ++ [url] }

/-- The fields of `AppState` that its file and URL methods use.  `α` is the type of file
objects, compared by identity; `audioUrls` is the `Map`, in insertion order;
`selectedIcon` is `{ file, url }` or `null`. -/
structure AppState (α : Type) where
  currentFiles : List α
  audioUrls : List (α × Nat)
  selectedIcon : Option (α × Nat)

/-- An `AppState` together with the object URLs of the page. -/
structure Session (α : Type) where
  state : AppState α
  urls : UrlStore α

/-- The state after `new AppState()`, with no object URL created yet. -/
def Session.init (α : Type) : Session α :=
  { state := { currentFiles := [], audioUrls := [], selectedIcon := none },
    urls := { next := 0, live := [], released := [] } }

/-- The lookup `this.audioUrls.get(file)`; `none` is `undefined`. -/
def AppState.audioUrl {α : Type} [DecidableEq α] (st : AppState α) (file : α) : Option Nat :=
  (st.audioUrls.find? (fun e => decide (e.1 = file))).map Prod.snd

/-- The method `addFiles(files)`. -/
def Session.addFiles {α : Type} (w : Session α) (files : List α) : Session α :=
  { w with state := { w.state with currentFiles := w.state.currentFiles ++ files } }

/-- The method `cleanupAudioUrl(file)`. -/
def Session.cleanupAudioUrl {α : Type} [DecidableEq α] (w : Session α) (file : α) :
    Session α :=
  match w.state.audioUrl file with
  | some url =>
    { state := { w.state with
        audioUrls := w.state.audioUrls.filter (fun e => decide (e.1 ≠ file)) },
      urls := w.urls.revoke url }
  | none => w

/-- The method `removeFile(index)` for a non-negative index: the URL of the file at the
index is cleaned up (nothing happens for `undefined`), then `splice(index, 1)`. -/
def Session.removeFile {α : Type} [DecidableEq α] (w : Session α) (index : Nat) :
    Session α :=
  let w1 := match w.state.currentFiles[index]? with
    | some file => w.cleanupAudioUrl file
    | none => w
  { w1 with state := { w1.state with currentFiles := w1.state.currentFiles.eraseIdx index } }

/-- The method `getOrCreateAudioUrl(file)`, as a state change. -/
def Session.getOrCreateAudioUrl {α : Type} [DecidableEq α] (w : Session α) (file : α) :
    Session α :=
  if (w.state.audioUrl file).isSome then w
  else
    let r := w.urls.create (Asset.track file)
    { state := { w.state with audioUrls := w.state.audioUrls ++ [(file, r.1)] },
      urls := r.2 }

/-- The method `setSelectedIcon(file)`; `none` is a falsy argument. -/
def Session.setSelectedIcon {α : Type} (w : Session α) (file : Option α) : Session α :=
  let urls1 := match w.state.selectedIcon with
    | some icon => w.urls.revoke icon.2
    | none => w.urls
  match file with
  | some f =>
    let r := urls1.create (Asset.icon f)
    { state := { w.state with selectedIcon := some (f, r.1) }, urls := r.2 }
  | none => { state := { w.state with selectedIcon := none }, urls := urls1 }

/-- The method `cleanup()`. -/
def Session.cleanup {α : Type} (w : Session α) : Session α :=
  let urls1 := (w.state.audioUrls.map Prod.snd).foldl UrlStore.revoke w.urls
  match w.state.selectedIcon with
  | some icon =>
    { state := { w.state with audioUrls := [], selectedIcon := none },
      urls := urls1.revoke icon.2 }
  | none => { state := { w.state with audioUrls := [] }, urls := urls1 }

/-- One call of an `AppState` method. -/
inductive Call (α : Type) where
  | addFiles (files : List α)
  | removeFile (index : Nat)
  | cleanupAudioUrl (file : α)
  | getOrCreateAudioUrl (file : α)
  | setSelectedIcon (file : Option α)
  | cleanup

/-- The effect of one call. -/
def Session.call {α : Type} [DecidableEq α] (w : Session α) : Call α → Session α
  | Call.addFiles files => w.addFiles files
  | Call.removeFile index => w.removeFile index
  | Call.cleanupAudioUrl file => w.cleanupAudioUrl file
  | Call.getOrCreateAudioUrl file => w.getOrCreateAudioUrl file
  | Call.setSelectedIcon file => w.setSelectedIcon file
  | Call.cleanup => w.cleanup

/-- The session after a sequence of calls on a fresh `AppState`. -/
def Session.run {α : Type} [DecidableEq α] (calls : List (Call α)) : Session α :=
  calls.foldl Session.call (Session.init α)

/-- Consistency of the URL store: handles are below `next`, the live handles are
pairwise distinct, and the released handles are pairwise distinct and not live. -/
def UrlStore.Ok {α : Type} (s : UrlStore α) : Prop :=
  (∀ e ∈ s.live, e.1 < s.next) ∧
  (∀ h ∈ s.released, h < s.next) ∧
  (∀ h ∈ s.released, ∀ e ∈ s.live, e.1 ≠ h) ∧
  s.released.Nodup ∧
  (s.live.map Prod.fst).Nodup

/-- The live handles are exactly the ones `AppState` holds: the values of `audioUrls`,
each for its key, and the URL of `selectedIcon`; the keys of `audioUrls` are distinct. -/
def Session.Linked {α : Type} (w : Session α) : Prop :=
  (∀ h a, (h, a) ∈ w.urls.live ↔
    (∃ f, a = Asset.track f ∧ (f, h) ∈ w.state.audioUrls) ∨
    (∃ f, a = Asset.icon f ∧ w.state.selectedIcon = some (f, h))) ∧
  (w.state.audioUrls.map Prod.fst).Nodup

/-! ## Cost of a pairing -/

/-- Sum of `|disc duration - track duration|` over a pairing of track durations to
discs. -/
def totalDifference (pairs : List (ℚ × Disc)) : ℚ :=
  (pairs.map (fun p => absDiff p.2 p.1)).sum

/-- The pairing a result of `assignDiscsOptimal` stands for: each track duration with
the disc it was put on. -/
def assignmentPairs (out : List Assignment) : List (ℚ × Disc) :=
  out.filterMap (fun a => a.discDuration.map (fun dd => (a.userDuration, Disc.mk a.disc dd)))

/-! ## Preview items -/

/-- What `createPreviewItem(assignment, index)` builds, as far as the remove button is
concerned: the assignment shown and the `index` its remove handler passes to
`removeFile`. -/
structure PreviewItem where
  assignment : Assignment
  index : Nat
deriving DecidableEq

/-- The items of `assignments.forEach((assignment, index) => ...)` in `updateFileList`. -/
def previewItems (assignments : List Assignment) : List PreviewItem :=
  assignments.enum.map (fun p => { assignment := p.2, index := p.1 })

/-- A click on the remove button of an item: `removeFile(index)`, which calls
`state.removeFile(index)`. -/
def clickRemove (w : Session File) (item : PreviewItem) : Session File :=
  w.removeFile item.index

/-! ## Lemmas -/

theorem passAStep_eq (used : List String) (d : ℚ) :
    passAStep used d = scanStep (fun disc => decide (d ≤ (disc.duration : ℚ))) used d := by
  funext best disc
  simp [passAStep, scanStep]

theorem passBStep_eq (used : List String) (d : ℚ) :
    passBStep used d = scanStep (fun _ => true) used d := by
  funext best disc
  simp [passBStep, scanStep]

theorem diffLt_trans {a b : ℚ} {best : Option ℚ} (hab : a ≤ b) (hb : diffLt b best = true) :
    diffLt a best = true := by
  cases best with
  | none => rfl
  | some c =>
    simp only [diffLt, decide_eq_true_eq] at hb ⊢
    exact lt_of_le_of_lt hab hb

theorem diffLt_some {a b : ℚ} : diffLt a (some b) = true ↔ a < b := by
  simp [diffLt]

theorem le_of_diffLt_false {a b : ℚ} {best : Option ℚ} (ha : diffLt a best = true)
    (hb : diffLt b best = false) : a ≤ b := by
  cases best with
  | none => simp [diffLt] at hb
  | some c =>
    simp only [diffLt, decide_eq_true_eq, decide_eq_false_iff_not, not_lt] at ha hb
    exact le_trans (le_of_lt ha) hb

/-- Outcome of a scan over `l` started from `best`: either nothing beat `best`, or the
result is an unused eligible disc of `l` with least difference. -/
theorem scan_spec (elig : Disc → Bool) (used : List String) (d : ℚ) :
    ∀ (l : List Disc) (best : Best),
      (l.foldl (scanStep elig used d) best = best ∧
        ∀ disc ∈ l, disc.name ∉ used → elig disc = true →
          diffLt (absDiff disc d) best.bestDiff = false) ∨
      (∃ disc ∈ l, disc.name ∉ used ∧ elig disc = true ∧
        l.foldl (scanStep elig used d) best =
          { bestDisc := some disc.name, bestDiff := some (absDiff disc d) } ∧
        diffLt (absDiff disc d) best.bestDiff = true ∧
        ∀ disc' ∈ l, disc'.name ∉ used → elig disc' = true →
          absDiff disc d ≤ absDiff disc' d) := by
  intro l
  induction l with
  | nil => intro best; left; simp
  | cons a l ih =>
    intro best
    rw [List.foldl_cons]
    by_cases htake : a.name ∉ used ∧ elig a = true ∧ diffLt (absDiff a d) best.bestDiff = true
    · obtain ⟨hu, he, hlt⟩ := htake
      have hstep : scanStep elig used d best a =
          { bestDisc := some a.name, bestDiff := some (absDiff a d) } := by
        simp [scanStep, hu, he, hlt]
      rw [hstep]
      right
      rcases ih { bestDisc := some a.name, bestDiff := some (absDiff a d) } with
        ⟨heq, hall⟩ | ⟨disc, hmem, hdu, hde, heq, hdlt, hmin⟩
      · refine ⟨a, List.mem_cons_self _ _, hu, he, heq, hlt, ?_⟩
        intro disc' hmem' hu' he'
        rcases List.mem_cons.1 hmem' with rfl | hmem'
        · exact le_refl _
        · have := hall disc' hmem' hu' he'
          simpa [diffLt] using this
      · have hda : absDiff disc d < absDiff a d := diffLt_some.1 hdlt
        refine ⟨disc, List.mem_cons_of_mem _ hmem, hdu, hde, heq,
          diffLt_trans (le_of_lt hda) hlt, ?_⟩
        intro disc' hmem' hu' he'
        rcases List.mem_cons.1 hmem' with rfl | hmem'
        · exact le_of_lt hda
        · exact hmin disc' hmem' hu' he'
    · have hstep : scanStep elig used d best a = best := by
        unfold scanStep
        by_cases hu : a.name ∈ used
        · simp [hu]
        · have : ¬ (elig a = true ∧ diffLt (absDiff a d) best.bestDiff = true) :=
            fun h => htake ⟨hu, h.1, h.2⟩
          simp [hu, this]
      have hskip : a.name ∉ used → elig a = true →
          diffLt (absDiff a d) best.bestDiff = false := by
        intro hu he
        by_contra hc
        exact htake ⟨hu, he, by simpa using hc⟩
      rw [hstep]
      rcases ih best with ⟨heq, hall⟩ | ⟨disc, hmem, hdu, hde, heq, hdlt, hmin⟩
      · left
        refine ⟨heq, ?_⟩
        intro disc' hmem' hu' he'
        rcases List.mem_cons.1 hmem' with rfl | hmem'
        · exact hskip hu' he'
        · exact hall disc' hmem' hu' he'
      · right
        refine ⟨disc, List.mem_cons_of_mem _ hmem, hdu, hde, heq, hdlt, ?_⟩
        intro disc' hmem' hu' he'
        rcases List.mem_cons.1 hmem' with rfl | hmem'
        · exact le_of_diffLt_false hdlt (hskip hu' he')
        · exact hmin disc' hmem' hu' he'

theorem chooseDisc_cover (discs : List Disc) (used : List String) (d : ℚ)
    (hne : ∀ disc ∈ discs, disc.name ≠ "")
    (h : ∃ disc ∈ discs, disc.name ∉ used ∧ d ≤ (disc.duration : ℚ)) :
    ∃ disc ∈ discs, disc.name ∉ used ∧ d ≤ (disc.duration : ℚ) ∧
      chooseDisc discs used d =
        { bestDisc := some disc.name, bestDiff := some (absDiff disc d) } ∧
      ∀ disc' ∈ discs, disc'.name ∉ used → d ≤ (disc'.duration : ℚ) →
        absDiff disc d ≤ absDiff disc' d := by
  obtain ⟨w, hw, hwu, hwc⟩ := h
  rcases scan_spec (fun disc => decide (d ≤ (disc.duration : ℚ))) used d discs
      { bestDisc := none, bestDiff := none } with
    ⟨_, hall⟩ | ⟨disc, hmem, hdu, hde, heq, _, hmin⟩
  · have := hall w hw hwu (by simpa using hwc)
    simp [diffLt] at this
  · refine ⟨disc, hmem, hdu, by simpa using hde, ?_, ?_⟩
    · have hn := hne disc hmem
      simp [chooseDisc, passAStep_eq, heq, truthy, hn]
    · intro disc' hmem' hu' hc'
      exact hmin disc' hmem' hu' (by simpa using hc')

theorem chooseDisc_fallback (discs : List Disc) (used : List String) (d : ℚ)
    (hno : ∀ disc ∈ discs, disc.name ∉ used → ¬ d ≤ (disc.duration : ℚ))
    (h : ∃ disc ∈ discs, disc.name ∉ used) :
    ∃ disc ∈ discs, disc.name ∉ used ∧
      chooseDisc discs used d =
        { bestDisc := some disc.name, bestDiff := some (absDiff disc d) } ∧
      ∀ disc' ∈ discs, disc'.name ∉ used → absDiff disc d ≤ absDiff disc' d := by
  obtain ⟨w, hw, hwu⟩ := h
  have hA : discs.foldl (passAStep used d) { bestDisc := none, bestDiff := none } =
      { bestDisc := none, bestDiff := none } := by
    rcases scan_spec (fun disc => decide (d ≤ (disc.duration : ℚ))) used d discs
        { bestDisc := none, bestDiff := none } with
      ⟨heq, _⟩ | ⟨disc, hmem, hdu, hde, _, _, _⟩
    · rw [passAStep_eq]; exact heq
    · exact absurd (by simpa using hde) (hno disc hmem hdu)
  rcases scan_spec (fun _ => true) used d discs { bestDisc := none, bestDiff := none } with
    ⟨_, hall⟩ | ⟨disc, hmem, hdu, _, heq, _, hmin⟩
  · have := hall w hw hwu rfl
    simp [diffLt] at this
  · refine ⟨disc, hmem, hdu, ?_, ?_⟩
    · simp [chooseDisc, hA, truthy, passBStep_eq, heq]
    · intro disc' hmem' hu'
      exact hmin disc' hmem' hu' rfl

theorem chooseDisc_none (discs : List Disc) (used : List String) (d : ℚ)
    (hall : ∀ disc ∈ discs, disc.name ∈ used) :
    chooseDisc discs used d = { bestDisc := none, bestDiff := none } := by
  have hA : discs.foldl (passAStep used d) { bestDisc := none, bestDiff := none } =
      { bestDisc := none, bestDiff := none } := by
    rcases scan_spec (fun disc => decide (d ≤ (disc.duration : ℚ))) used d discs
        { bestDisc := none, bestDiff := none } with
      ⟨heq, _⟩ | ⟨disc, hmem, hdu, _⟩
    · rw [passAStep_eq]; exact heq
    · exact absurd (hall disc hmem) hdu
  have hB : discs.foldl (passBStep used d) { bestDisc := none, bestDiff := none } =
      { bestDisc := none, bestDiff := none } := by
    rcases scan_spec (fun _ => true) used d discs { bestDisc := none, bestDiff := none } with
      ⟨heq, _⟩ | ⟨disc, hmem, hdu, _⟩
    · rw [passBStep_eq]; exact heq
    · exact absurd (hall disc hmem) hdu
  simp [chooseDisc, hA, truthy, hB]

/-- Whatever the used set, the search ends on an unused disc with its difference, or on
`null` with `Infinity` when every disc is used. -/
theorem chooseDisc_cases (discs : List Disc) (used : List String) (d : ℚ)
    (hne : ∀ disc ∈ discs, disc.name ≠ "") :
    (chooseDisc discs used d = { bestDisc := none, bestDiff := none } ∧
      ∀ disc ∈ discs, disc.name ∈ used) ∨
    (∃ disc ∈ discs, disc.name ∉ used ∧
      chooseDisc discs used d =
        { bestDisc := some disc.name, bestDiff := some (absDiff disc d) }) := by
  by_cases hall : ∀ disc ∈ discs, disc.name ∈ used
  · exact Or.inl ⟨chooseDisc_none discs used d hall, hall⟩
  · right
    push_neg at hall
    by_cases hc : ∃ disc ∈ discs, disc.name ∉ used ∧ d ≤ (disc.duration : ℚ)
    · obtain ⟨disc, hmem, hu, _, heq, _⟩ := chooseDisc_cover discs used d hne hc
      exact ⟨disc, hmem, hu, heq⟩
    · push_neg at hc
      obtain ⟨disc, hmem, hu, heq, _⟩ :=
        chooseDisc_fallback discs used d (fun disc hm hu => not_le.2 (hc disc hm hu)) hall
      exact ⟨disc, hmem, hu, heq⟩

theorem assignStep_of_some (discs : List Disc) (st : LoopState) (fd : FileDuration)
    (name : String) (diff : Option ℚ) (hname : name ≠ "") (hu : name ∉ st.usedDiscs)
    (h : chooseDisc discs st.usedDiscs fd.duration = { bestDisc := some name, bestDiff := diff }) :
    assignStep discs st fd =
      { assignments := st.assignments ++
          [{ file := fd.file, disc := name, userDuration := fd.duration,
             discDuration := DISCO_DURATIONS name, difference := diff }],
        usedDiscs := st.usedDiscs ++ [name] } := by
  simp [assignStep, h, truthy, hname, hu]

theorem assignStep_of_none (discs : List Disc) (st : LoopState) (fd : FileDuration)
    (h : chooseDisc discs st.usedDiscs fd.duration = { bestDisc := none, bestDiff := none }) :
    assignStep discs st fd = st := by
  simp [assignStep, h]


theorem exists_unused (discs : List Disc) (used : List String)
    (hnames : (discs.map Disc.name).Nodup) (hlt : used.length < discs.length) :
    ∃ disc ∈ discs, disc.name ∉ used := by
  by_contra hcon
  push_neg at hcon
  have hsub : discs.map Disc.name ⊆ used := by
    intro n hn
    obtain ⟨disc, hd, rfl⟩ := List.mem_map.1 hn
    exact hcon disc hd
  have hle := (List.subperm_of_subset hnames hsub).length_le
  rw [List.length_map] at hle
  omega

theorem all_used (discs : List Disc) (used : List String) (hnd : used.Nodup)
    (hsub : ∀ n ∈ used, n ∈ discs.map Disc.name) (hge : discs.length ≤ used.length) :
    ∀ disc ∈ discs, disc.name ∈ used := by
  intro disc hd
  have hperm : used.Perm (discs.map Disc.name) :=
    (List.subperm_of_subset hnd hsub).perm_of_length_le (by simpa using hge)
  exact hperm.symm.subset (List.mem_map_of_mem _ hd)

theorem loopInv_init (discs : List Disc) :
    LoopInv discs { assignments := [], usedDiscs := [] } := by
  simp [LoopInv]

/-- One iteration either appends one assignment for the file, on an unused catalog
disc, or (every disc used) leaves the state alone. -/
theorem assignStep_spec (discs : List Disc) (hne : ∀ disc ∈ discs, disc.name ≠ "")
    (hnames : (discs.map Disc.name).Nodup) (st : LoopState) (hinv : LoopInv discs st)
    (fd : FileDuration) :
    LoopInv discs (assignStep discs st fd) ∧
    ((st.assignments.length < discs.length ∧
        ∃ a : Assignment, a.file = fd.file ∧ a.userDuration = fd.duration ∧
          assignStep discs st fd =
            { assignments := st.assignments ++ [a], usedDiscs := st.usedDiscs ++ [a.disc] }) ∨
      (discs.length ≤ st.assignments.length ∧ assignStep discs st fd = st)) := by
  obtain ⟨hused, hnd, hsub⟩ := hinv
  have hlen : st.usedDiscs.length = st.assignments.length := by
    rw [hused, List.length_map]
  rcases chooseDisc_cases discs st.usedDiscs fd.duration hne with
    ⟨hnone, hall⟩ | ⟨disc, hmem, hu, hsome⟩
  · have hstep := assignStep_of_none discs st fd hnone
    rw [hstep]
    refine ⟨⟨hused, hnd, hsub⟩, Or.inr ⟨?_, rfl⟩⟩
    by_contra hlt
    obtain ⟨disc, hd, hdu⟩ := exists_unused discs st.usedDiscs hnames (by omega)
    exact hdu (hall disc hd)
  · have hstep := assignStep_of_some discs st fd disc.name _ (hne disc hmem) hu hsome
    rw [hstep]
    refine ⟨⟨?_, ?_, ?_⟩, Or.inl ⟨?_, ⟨_, rfl, rfl, rfl⟩⟩⟩
    · simp [hused]
    · exact List.Nodup.append hnd (List.nodup_singleton _) (by simpa using hu)
    · intro n hn
      rcases List.mem_append.1 hn with h | h
      · exact hsub n h
      · rw [List.mem_singleton] at h
        rw [h]
        exact List.mem_map_of_mem _ hmem
    · by_contra hge
      exact hu (all_used discs st.usedDiscs hnd hsub (by omega) disc hmem)

/-- The whole loop from an invariant state takes the next files in order while discs
remain, and keeps what was already assigned. -/
theorem assignLoop_spec (discs : List Disc) (hne : ∀ disc ∈ discs, disc.name ≠ "")
    (hnames : (discs.map Disc.name).Nodup) :
    ∀ (fds : List FileDuration) (st : LoopState), LoopInv discs st →
      st.assignments.length ≤ discs.length →
      LoopInv discs (assignLoop discs fds st) ∧
      st.assignments <+: (assignLoop discs fds st).assignments ∧
      (assignLoop discs fds st).assignments.map (fun a => (a.file, a.userDuration)) =
        st.assignments.map (fun a => (a.file, a.userDuration)) ++
          (fds.take (discs.length - st.assignments.length)).map
            (fun fd => (fd.file, fd.duration)) := by
  intro fds
  induction fds with
  | nil =>
    intro st hinv _
    simp [assignLoop, hinv]
  | cons fd fds ih =>
    intro st hinv hle
    obtain ⟨hinv', hcase⟩ := assignStep_spec discs hne hnames st hinv fd
    have hunf : assignLoop discs (fd :: fds) st = assignLoop discs fds (assignStep discs st fd) :=
      rfl
    rw [hunf]
    rcases hcase with ⟨hlt, a, haf, had, hstep⟩ | ⟨hge, hstep⟩
    · have hlen' : (assignStep discs st fd).assignments.length ≤ discs.length := by
        rw [hstep]; simp; omega
      obtain ⟨h1, h2, h3⟩ := ih (assignStep discs st fd) hinv' hlen'
      refine ⟨h1, ?_, ?_⟩
      · refine List.IsPrefix.trans ?_ h2
        rw [hstep]
        exact List.prefix_append _ _
      · rw [h3, hstep]
        have hsub : discs.length - st.assignments.length =
            (discs.length - (st.assignments.length + 1)) + 1 := by omega
        rw [hsub, List.take_succ_cons]
        simp [haf, had]
    · obtain ⟨h1, h2, h3⟩ := ih (assignStep discs st fd) hinv' (by rw [hstep]; exact hle)
      rw [hstep] at h1 h2 h3 ⊢
      refine ⟨h1, h2, ?_⟩
      rw [h3]
      have hz : discs.length - st.assignments.length = 0 := by omega
      simp [hz]

theorem assignLoop_length (discs : List Disc) (hne : ∀ disc ∈ discs, disc.name ≠ "")
    (hnames : (discs.map Disc.name).Nodup) (fds : List FileDuration) :
    (assignLoop discs fds { assignments := [], usedDiscs := [] }).assignments.length =
      min fds.length discs.length := by
  obtain ⟨_, _, h3⟩ := assignLoop_spec discs hne hnames fds _ (loopInv_init discs)
    (Nat.zero_le _)
  have := congrArg List.length h3
  simp only [List.length_map, List.length_nil, List.length_append, List.length_take,
    Nat.sub_zero, Nat.zero_add] at this
  rw [this, Nat.min_comm]

/-- The state reached after the first `k` files is the first `k` assignments of the
final result, with exactly their discs marked used. -/
theorem assignLoop_take (discs : List Disc) (hne : ∀ disc ∈ discs, disc.name ≠ "")
    (hnames : (discs.map Disc.name).Nodup) (s : List FileDuration) (k : Nat) :
    assignLoop discs (s.take k) { assignments := [], usedDiscs := [] } =
      { assignments :=
          (assignLoop discs s { assignments := [], usedDiscs := [] }).assignments.take k,
        usedDiscs :=
          ((assignLoop discs s { assignments := [], usedDiscs := [] }).assignments.take k).map
            Assignment.disc } := by
  have hsplit : assignLoop discs s { assignments := [], usedDiscs := [] } =
      assignLoop discs (s.drop k)
        (assignLoop discs (s.take k) { assignments := [], usedDiscs := [] }) := by
    conv_lhs => rw [← List.take_append_drop k s]
    simp only [assignLoop, List.foldl_append]
  obtain ⟨hinvk, _, _⟩ := assignLoop_spec discs hne hnames (s.take k) _ (loopInv_init discs)
    (Nat.zero_le _)
  have hlenk := assignLoop_length discs hne hnames (s.take k)
  have hlen := assignLoop_length discs hne hnames s
  obtain ⟨_, hpre, _⟩ := assignLoop_spec discs hne hnames (s.drop k) _ hinvk
    (by rw [hlenk]; exact Nat.min_le_right _ _)
  rw [← hsplit] at hpre
  have htake : (assignLoop discs (s.take k) { assignments := [], usedDiscs := [] }).assignments =
      (assignLoop discs s { assignments := [], usedDiscs := [] }).assignments.take k := by
    rw [List.prefix_iff_eq_take.1 hpre, List.take_eq_take, hlenk, hlen, List.length_take]
    omega
  obtain ⟨hused, _, _⟩ := hinvk
  rw [htake] at hused
  generalize assignLoop discs (s.take k) { assignments := [], usedDiscs := [] } = stk at *
  cases stk with
  | mk asg used =>
    simp only at htake hused
    rw [htake, hused]

theorem assignLoop_succ (discs : List Disc) (s : List FileDuration) (k : Nat)
    (hk : k < s.length) (st : LoopState) :
    assignLoop discs (s.take (k + 1)) st =
      assignStep discs (assignLoop discs (s.take k) st) (s.get ⟨k, hk⟩) := by
  rw [List.take_succ, List.getElem?_eq_getElem hk]
  simp only [assignLoop, List.foldl_append, Option.toList, List.foldl_cons, List.foldl_nil,
    List.get_eq_getElem]

theorem availableDiscs_length : availableDiscs.length = 21 := by decide

theorem availableDiscs_nodup : (availableDiscs.map Disc.name).Nodup := by decide

theorem availableDiscs_ne : ∀ disc ∈ availableDiscs, disc.name ≠ "" := by decide

theorem availableDiscs_lookup :
    ∀ disc ∈ availableDiscs, DISCO_DURATIONS disc.name = some disc.duration := by decide

theorem probeAll_cons (probe : File → Option ℚ) (f : File) (files : List File) :
    probeAll probe (f :: files) =
      (probe f).bind (fun d => (probeAll probe files).map (fun fds => FileDuration.mk f d :: fds)) := by
  simp only [probeAll, List.mapM_cons]
  cases probe f with
  | none => rfl
  | some d =>
    cases List.mapM (fun file => (probe file).map (fun d => FileDuration.mk file d)) files <;> rfl

theorem probeAll_of_all (probe : File → Option ℚ) (files : List File)
    (h : ∀ f ∈ files, ∃ d, probe f = some d) :
    ∃ fds, probeAll probe files = some fds ∧ fds.map FileDuration.file = files ∧
      ∀ fd ∈ fds, probe fd.file = some fd.duration := by
  induction files with
  | nil => exact ⟨[], rfl, rfl, by simp⟩
  | cons f files ih =>
    obtain ⟨d, hd⟩ := h f (List.mem_cons_self _ _)
    obtain ⟨fds, h1, h2, h3⟩ := ih (fun g hg => h g (List.mem_cons_of_mem _ hg))
    refine ⟨FileDuration.mk f d :: fds, ?_, by simp [h2], ?_⟩
    · rw [probeAll_cons, hd, h1]; rfl
    · intro fd hfd
      rcases List.mem_cons.1 hfd with rfl | hfd
      · exact hd
      · exact h3 fd hfd

theorem probeAll_of_fail (probe : File → Option ℚ) (files : List File)
    (h : ∃ f ∈ files, probe f = none) : probeAll probe files = none := by
  induction files with
  | nil => simp at h
  | cons f files ih =>
    rw [probeAll_cons]
    cases hf : probe f with
    | none => rfl
    | some d =>
      obtain ⟨g, hg, hgn⟩ := h
      rcases List.mem_cons.1 hg with rfl | hg
      · rw [hf] at hgn; cases hgn
      · rw [ih ⟨g, hg, hgn⟩]; rfl

theorem take_succ_eq_append {α : Type} (l : List α) (k : Nat) (a : α)
    (h : l.take (k + 1) = l.take k ++ [a]) : l[k]? = some a := by
  rw [List.take_succ] at h
  have h' := List.append_cancel_left h
  cases hk : l[k]? with
  | none => rw [hk] at h'; simp at h'
  | some b => rw [hk] at h'; simp at h'; rw [h']

theorem take_succ_eq_self {α : Type} (l : List α) (k : Nat)
    (h : l.take (k + 1) = l.take k) : l[k]? = none := by
  rw [List.take_succ] at h
  cases hk : l[k]? with
  | none => rfl
  | some b =>
    rw [hk] at h
    have := congrArg List.length h
    simp at this

theorem kth_step (discs : List Disc) (hne : ∀ disc ∈ discs, disc.name ≠ "")
    (hnames : (discs.map Disc.name).Nodup) (s : List FileDuration) (k : Nat)
    (fd : FileDuration) (hfd : s[k]? = some fd) :
    assignStep discs
      { assignments :=
          (assignLoop discs s { assignments := [], usedDiscs := [] }).assignments.take k,
        usedDiscs :=
          ((assignLoop discs s { assignments := [], usedDiscs := [] }).assignments.take k).map
            Assignment.disc } fd =
      { assignments :=
          (assignLoop discs s { assignments := [], usedDiscs := [] }).assignments.take (k + 1),
        usedDiscs :=
          ((assignLoop discs s
            { assignments := [], usedDiscs := [] }).assignments.take (k + 1)).map
            Assignment.disc } := by
  obtain ⟨hk, hget⟩ := List.getElem?_eq_some.1 hfd
  rw [← assignLoop_take discs hne hnames s k, ← assignLoop_take discs hne hnames s (k + 1),
    assignLoop_succ discs s k hk, List.get_eq_getElem, hget]

/-- When the search for the `k`-th sorted file ends on a disc, the `k`-th assignment
of the result is that file on that disc. -/
theorem kth_of_some (discs : List Disc) (hne : ∀ disc ∈ discs, disc.name ≠ "")
    (hnames : (discs.map Disc.name).Nodup) (s : List FileDuration) (k : Nat)
    (fd : FileDuration) (hfd : s[k]? = some fd) (name : String) (diff : Option ℚ)
    (hname : name ≠ "")
    (hu : name ∉ ((assignLoop discs s
      { assignments := [], usedDiscs := [] }).assignments.take k).map Assignment.disc)
    (h : chooseDisc discs (((assignLoop discs s
      { assignments := [], usedDiscs := [] }).assignments.take k).map Assignment.disc)
        fd.duration = { bestDisc := some name, bestDiff := diff }) :
    (assignLoop discs s { assignments := [], usedDiscs := [] }).assignments[k]? =
      some { file := fd.file, disc := name, userDuration := fd.duration,
             discDuration := DISCO_DURATIONS name, difference := diff } := by
  have hstep := kth_step discs hne hnames s k fd hfd
  rw [assignStep_of_some discs _ fd name diff hname hu h] at hstep
  have := congrArg LoopState.assignments hstep
  exact take_succ_eq_append _ k _ this.symm

theorem kth_of_none (discs : List Disc) (hne : ∀ disc ∈ discs, disc.name ≠ "")
    (hnames : (discs.map Disc.name).Nodup) (s : List FileDuration) (k : Nat)
    (fd : FileDuration) (hfd : s[k]? = some fd)
    (h : chooseDisc discs (((assignLoop discs s
      { assignments := [], usedDiscs := [] }).assignments.take k).map Assignment.disc)
        fd.duration = { bestDisc := none, bestDiff := none }) :
    (assignLoop discs s { assignments := [], usedDiscs := [] }).assignments[k]? = none := by
  have hstep := kth_step discs hne hnames s k fd hfd
  rw [assignStep_of_none discs _ fd h] at hstep
  have := congrArg LoopState.assignments hstep
  exact take_succ_eq_self _ k this.symm

theorem assignDiscsOptimal_of_probeAll (probe : File → Option ℚ) (files : List File)
    (fds : List FileDuration) (hp : probeAll probe files = some fds) :
    assignDiscsOptimal probe files = some (assignResolved fds) := by
  simp [assignDiscsOptimal, hp]

theorem probeAll_some_iff (probe : File → Option ℚ) (files : List File)
    (fds : List FileDuration) (hp : probeAll probe files = some fds) :
    fds.map FileDuration.file = files ∧ ∀ fd ∈ fds, probe fd.file = some fd.duration := by
  have hall : ∀ f ∈ files, ∃ d, probe f = some d := by
    intro f hf
    cases hpf : probe f with
    | some d => exact ⟨d, rfl⟩
    | none =>
      rw [probeAll_of_fail probe files ⟨f, hf, hpf⟩] at hp
      cases hp
  obtain ⟨fds', h1, h2, h3⟩ := probeAll_of_all probe files hall
  rw [hp] at h1
  cases h1
  exact ⟨h2, h3⟩

theorem sortByDurationDesc_perm (fds : List FileDuration) :
    (sortByDurationDesc fds).Perm fds :=
  List.perm_insertionSort _ fds

theorem sortByDurationDesc_sorted (fds : List FileDuration) :
    (sortByDurationDesc fds).Pairwise (fun a b => b.duration ≤ a.duration) := by
  haveI : IsTotal FileDuration (fun a b => b.duration ≤ a.duration) :=
    ⟨fun a b => le_total b.duration a.duration⟩
  haveI : IsTrans FileDuration (fun a b => b.duration ≤ a.duration) :=
    ⟨fun _ _ _ hab hbc => le_trans hbc hab⟩
  exact List.sorted_insertionSort (fun a b : FileDuration => b.duration ≤ a.duration) fds

/-- Stability: the files of any one duration come out in the order they went in. -/
theorem sortByDurationDesc_stable (fds : List FileDuration) (d : ℚ) :
    (sortByDurationDesc fds).filter (fun fd => decide (fd.duration = d)) =
      fds.filter (fun fd => decide (fd.duration = d)) := by
  have hpw : (fds.filter (fun fd => decide (fd.duration = d))).Pairwise
      (fun a b => b.duration ≤ a.duration) := by
    rw [List.pairwise_iff_forall_sublist]
    intro a b hab
    have ha := hab.subset (List.mem_cons_self _ _)
    have hb := hab.subset (List.mem_cons_of_mem _ (List.mem_cons_self _ _))
    simp only [List.mem_filter, decide_eq_true_eq] at ha hb
    rw [ha.2, hb.2]
  have hsub : List.Sublist (fds.filter (fun fd => decide (fd.duration = d)))
      (sortByDurationDesc fds) :=
    List.sublist_insertionSort hpw (List.filter_sublist _)
  have hsub' := hsub.filter (fun fd => decide (fd.duration = d))
  rw [List.filter_filter] at hsub'
  simp only [Bool.and_self] at hsub'
  have hlen := ((sortByDurationDesc_perm fds).filter
    (fun fd => decide (fd.duration = d))).length_eq
  exact (hsub'.eq_of_length hlen.symm).symm

theorem sortByDurationDesc_of_const (fds : List FileDuration) (d : ℚ)
    (h : ∀ fd ∈ fds, fd.duration = d) : sortByDurationDesc fds = fds := by
  apply List.Sorted.insertionSort_eq
  rw [List.Sorted, List.pairwise_iff_forall_sublist]
  intro a b hab
  have ha := hab.subset (List.mem_cons_self _ _)
  have hb := hab.subset (List.mem_cons_of_mem _ (List.mem_cons_self _ _))
  rw [h a ha, h b hb]

theorem perm_map_lift {α β : Type} (g : β → α) {l l' : List α} (h : l.Perm l') :
    ∀ idx : List β, idx.map g = l → ∃ idx' : List β, idx'.Perm idx ∧ idx'.map g = l' := by
  induction h with
  | nil => intro idx h; exact ⟨idx, List.Perm.refl _, h⟩
  | cons a _ ih =>
    intro idx h
    obtain ⟨i, idx0, rfl, hi, h0⟩ := List.map_eq_cons_iff.1 h
    obtain ⟨idx1, hp, hm⟩ := ih idx0 h0
    exact ⟨i :: idx1, hp.cons i, by simp [hi, hm]⟩
  | swap a b l =>
    intro idx h
    obtain ⟨i, idx0, rfl, hi, h0⟩ := List.map_eq_cons_iff.1 h
    obtain ⟨j, idx1, rfl, hj, h1⟩ := List.map_eq_cons_iff.1 h0
    exact ⟨j :: i :: idx1, List.Perm.swap _ _ _, by simp [hi, hj, h1]⟩
  | trans _ _ ih1 ih2 =>
    intro idx h
    obtain ⟨idx1, hp1, hm1⟩ := ih1 idx h
    obtain ⟨idx2, hp2, hm2⟩ := ih2 idx1 hm1
    exact ⟨idx2, hp2.trans hp1, hm2⟩

/-- A list that is a sublist of a permutation of `l₂` is read off `l₂` at pairwise
distinct positions. -/
theorem exists_positions_of_subperm {α : Type} {l₁ l₂ : List α} (h : l₁.Subperm l₂) :
    ∃ idx : List (Fin l₂.length), idx.Nodup ∧ l₁ = idx.map l₂.get := by
  obtain ⟨l, hperm, hsub⟩ := h
  obtain ⟨f, hf⟩ := List.sublist_iff_exists_fin_orderEmbedding_get_eq.1 hsub
  have h0 : ((List.finRange l.length).map f).map l₂.get = l := by
    rw [List.map_map]
    apply List.ext_get
    · simp
    · intro n h1 h2
      have hn := hf ⟨n, h2⟩
      simp only [List.get_eq_getElem] at hn
      simp [hn]
  obtain ⟨idx, hp, hm⟩ := perm_map_lift l₂.get hperm _ h0
  refine ⟨idx, ?_, hm.symm⟩
  exact hp.nodup_iff.2 ((List.nodup_finRange _).map f.injective)

theorem assignResolved_tracks (fds : List FileDuration) :
    (assignResolved fds).map (fun a => (a.file, a.userDuration)) =
      ((sortByDurationDesc fds).take 21).map (fun fd => (fd.file, fd.duration)) := by
  obtain ⟨_, _, h3⟩ := assignLoop_spec availableDiscs availableDiscs_ne availableDiscs_nodup
    (sortByDurationDesc fds) _ (loopInv_init availableDiscs) (Nat.zero_le _)
  simpa [assignResolved, availableDiscs_length] using h3

theorem assignResolved_length (fds : List FileDuration) :
    (assignResolved fds).length = min fds.length 21 := by
  have h := assignLoop_length availableDiscs availableDiscs_ne availableDiscs_nodup
    (sortByDurationDesc fds)
  rw [availableDiscs_length, (sortByDurationDesc_perm fds).length_eq] at h
  exact h

theorem assignResolved_discs_nodup (fds : List FileDuration) :
    ((assignResolved fds).map Assignment.disc).Nodup := by
  obtain ⟨⟨h1, h2, _⟩, _, _⟩ := assignLoop_spec availableDiscs availableDiscs_ne
    availableDiscs_nodup (sortByDurationDesc fds) _ (loopInv_init availableDiscs)
    (Nat.zero_le _)
  rw [h1] at h2
  exact h2

/-- Every element of the result is the file at its position in the sorted list, on
the disc the search ended on, with that disc's table duration and `bestDiff`. -/
theorem assignResolved_getElem (fds : List FileDuration) (k : Nat) (a : Assignment)
    (ha : (assignResolved fds)[k]? = some a) :
    ∃ fd disc, (sortByDurationDesc fds)[k]? = some fd ∧ disc ∈ availableDiscs ∧
      disc.name ∉ ((assignResolved fds).take k).map Assignment.disc ∧
      a = { file := fd.file, disc := disc.name, userDuration := fd.duration,
            discDuration := some disc.duration,
            difference := some (absDiff disc fd.duration) } := by
  obtain ⟨hk, _⟩ := List.getElem?_eq_some.1 ha
  have hks : k < (sortByDurationDesc fds).length := by
    rw [assignResolved_length] at hk
    rw [(sortByDurationDesc_perm fds).length_eq]
    omega
  have hfd : (sortByDurationDesc fds)[k]? = some ((sortByDurationDesc fds)[k]) :=
    List.getElem?_eq_getElem hks
  rcases chooseDisc_cases availableDiscs
      (((assignResolved fds).take k).map Assignment.disc)
      ((sortByDurationDesc fds)[k]).duration availableDiscs_ne with
    ⟨hnone, _⟩ | ⟨disc, hmem, hu, hsome⟩
  · have := kth_of_none availableDiscs availableDiscs_ne availableDiscs_nodup
      (sortByDurationDesc fds) k _ hfd hnone
    rw [assignResolved] at ha
    rw [this] at ha
    cases ha
  · have := kth_of_some availableDiscs availableDiscs_ne availableDiscs_nodup
      (sortByDurationDesc fds) k _ hfd disc.name _ (availableDiscs_ne disc hmem) hu hsome
    rw [assignResolved] at ha
    rw [this, availableDiscs_lookup disc hmem] at ha
    exact ⟨_, disc, hfd, hmem, hu, (Option.some.inj ha).symm⟩

theorem soundPath_data (disc : String) :
    (soundPath disc).data = recordsFolder.data ++ (disc.data ++ ".ogg".data) := by
  simp [soundPath, String.data_append]

theorem soundPath_injective {a b : String} (h : soundPath a = soundPath b) : a = b := by
  have hd := congrArg String.data h
  rw [soundPath_data, soundPath_data] at hd
  have h1 := List.append_cancel_right (List.append_cancel_left hd)
  exact String.ext h1

theorem inRecordsFolder_soundPath (disc : String) : inRecordsFolder (soundPath disc) = true := by
  rw [inRecordsFolder, soundPath_data, List.isPrefixOf_iff_prefix]
  exact List.prefix_append _ _

theorem zipFile_of_absent (zip : Zip) (path : String) (data : Content)
    (h : ∀ e ∈ zip, e.1 ≠ path) : zipFile zip path data = zip ++ [(path, data)] := by
  have hany : zip.any (fun e => e.1 == path) = false := by
    rw [List.any_eq_false]
    intro e he
    simpa using h e he
  simp [zipFile, hany]

/-- Writing assignments on pairwise distinct discs, none of whose paths is taken,
appends one entry per assignment. -/
theorem writeSounds_append (assignments : List Assignment) :
    ∀ zip : Zip, (assignments.map Assignment.disc).Nodup →
      (∀ a ∈ assignments, ∀ e ∈ zip, e.1 ≠ soundPath a.disc) →
      writeSounds zip assignments =
        zip ++ assignments.map (fun a => (soundPath a.disc, Content.buffer a.file.bytes)) := by
  induction assignments with
  | nil => intro zip _ _; simp [writeSounds]
  | cons a rest ih =>
    intro zip hnd hfree
    rw [List.map_cons, List.nodup_cons] at hnd
    have hstep : writeSounds zip (a :: rest) =
        writeSounds (zipFile zip (soundPath a.disc) (Content.buffer a.file.bytes)) rest := rfl
    rw [hstep, zipFile_of_absent zip _ _ (hfree a (List.mem_cons_self _ _)), ih _ hnd.2]
    · simp
    · intro b hb e he
      rcases List.mem_append.1 he with he | he
      · exact hfree b (List.mem_cons_of_mem _ hb) e he
      · rw [List.mem_singleton] at he
        rw [he]
        intro hpath
        have := soundPath_injective hpath
        exact hnd.1 (this ▸ List.mem_map_of_mem _ hb)

theorem filter_key_eq_singleton {α β : Type} [DecidableEq β] (f : α → β) :
    ∀ (l : List α) (a : α), (l.map f).Nodup → a ∈ l →
      l.filter (fun x => decide (f x = f a)) = [a] := by
  intro l
  induction l with
  | nil => intro a _ ha; cases ha
  | cons x l ih =>
    intro a hnd ha
    rw [List.map_cons, List.nodup_cons] at hnd
    rcases List.mem_cons.1 ha with rfl | hmem
    · have hnone : l.filter (fun y => decide (f y = f a)) = [] := by
        rw [List.filter_eq_nil_iff]
        intro y hy
        simp only [decide_eq_true_eq]
        intro hfy
        exact hnd.1 (hfy ▸ List.mem_map_of_mem _ hy)
      simp [List.filter_cons, hnone]
    · have hx : f x ≠ f a := fun hfx => hnd.1 (hfx ▸ List.mem_map_of_mem _ hmem)
      simp [List.filter_cons, hx, ih a hnd.2 hmem]

/-- The archive `crearMod` builds: the sound entries in assignment order, then the icon
when there is one, then the manifest. -/
theorem crearMod_eq (getAudioDuration : File → Option ℚ) (currentFiles : List File)
    (name description : String) (major minor patch : Option Int)
    (iconBuffer : Option (List Nat)) (uuid1 uuid2 : String) (out : List Assignment)
    (hne : currentFiles ≠ [])
    (hout : assignDiscsOptimal getAudioDuration currentFiles = some out) :
    crearMod getAudioDuration currentFiles name description major minor patch iconBuffer
        uuid1 uuid2 =
      some (out.map (fun a => (soundPath a.disc, Content.buffer a.file.bytes)) ++
        iconEntries iconBuffer ++
        [("manifest.json", Content.json
          (buildManifest name description (packVersion major minor patch) uuid1 uuid2))]) := by
  obtain ⟨fds, _, hres⟩ := Option.map_eq_some'.1 hout
  have hnd : (out.map Assignment.disc).Nodup := hres ▸ assignResolved_discs_nodup fds
  have hlen : currentFiles.length ≠ 0 := by
    rw [Ne, List.length_eq_zero]; exact hne
  have hsounds := writeSounds_append out [] hnd (fun _ _ e he => by cases he)
  rw [List.nil_append] at hsounds
  have hnotrec : ∀ (p : String), inRecordsFolder p = false →
      ∀ e ∈ out.map (fun a => (soundPath a.disc, Content.buffer a.file.bytes)), e.1 ≠ p := by
    intro p hp e he hep
    obtain ⟨a, _, rfl⟩ := List.mem_map.1 he
    simp only at hep
    rw [← hep, inRecordsFolder_soundPath] at hp
    cases hp
  simp only [crearMod, hlen, if_false, hout]
  rw [hsounds]
  cases iconBuffer with
  | none =>
    simp only [iconEntries]
    rw [zipFile_of_absent _ _ _ (hnotrec "manifest.json" (by decide)), List.append_nil]
  | some buf =>
    simp only [iconEntries]
    rw [zipFile_of_absent _ _ _ (hnotrec "pack_icon.png" (by decide)),
      zipFile_of_absent]
    intro e he
    rcases List.mem_append.1 he with he | he
    · exact hnotrec "manifest.json" (by decide) e he
    · rw [List.mem_singleton] at he
      rw [he]
      exact (by decide : "pack_icon.png" ≠ "manifest.json")

theorem assignDiscsOptimal_of_fail (probe : File → Option ℚ) (files : List File)
    (h : ∃ f ∈ files, probe f = none) : assignDiscsOptimal probe files = none := by
  simp [assignDiscsOptimal, probeAll_of_fail probe files h]

/-- For an entered major version other than 0 the written version is the clamped
input, component by component. -/
theorem packVersion_of_nonzero_major (major minor patch : Int) (h : major ≠ 0) :
    packVersion (some major) (some minor) (some patch) =
      [clampVersion major, clampVersion minor, clampVersion patch] := by
  have hminor : orDefault (some minor) 0 = minor := by
    by_cases h0 : minor = 0 <;> simp [orDefault, h0]
  have hpatch : orDefault (some patch) 0 = patch := by
    by_cases h0 : patch = 0 <;> simp [orDefault, h0]
  have hmajor : orDefault (some major) 1 = major := by
    simp [orDefault, h]
  rw [packVersion, hmajor, hminor, hpatch]

theorem clampVersion_range (x : Int) : 0 ≤ clampVersion x ∧ clampVersion x ≤ 99 := by
  unfold clampVersion
  omega

/-- The manifest read back from the archive has the version computed by `packVersion`
in its header and in its single module. -/
theorem crearMod_manifest (probe : File → Option ℚ) (currentFiles : List File)
    (name description : String) (major minor patch : Option Int)
    (iconBuffer : Option (List Nat)) (uuid1 uuid2 : String) (out : List Assignment)
    (hne : currentFiles ≠ []) (hout : assignDiscsOptimal probe currentFiles = some out) :
    (crearMod probe currentFiles name description major minor patch iconBuffer
        uuid1 uuid2).bind manifestOf =
      some (buildManifest name description (packVersion major minor patch) uuid1 uuid2) := by
  rw [crearMod_eq probe currentFiles name description major minor patch iconBuffer uuid1 uuid2
    out hne hout]
  have hsnd : ∀ l : List Assignment,
      (l.map (fun a => (soundPath a.disc, Content.buffer a.file.bytes))).find?
        (fun e => e.1 == "manifest.json") = none := by
    intro l
    rw [List.find?_eq_none]
    intro e he
    obtain ⟨a, _, rfl⟩ := List.mem_map.1 he
    simp only [beq_iff_eq]
    intro h
    have := inRecordsFolder_soundPath a.disc
    rw [h] at this
    exact absurd this (by decide)
  have hicon : (iconEntries iconBuffer).find? (fun e => e.1 == "manifest.json") = none := by
    cases iconBuffer <;> rfl
  simp only [Option.some_bind, manifestOf, List.find?_append, hsnd, hicon, Option.none_or]
  rfl

theorem UrlStore.mem_live_revoke {α : Type} (s : UrlStore α) (url : Nat) (e : Nat × Asset α) :
    e ∈ (s.revoke url).live ↔ e ∈ s.live ∧ e.1 ≠ url := by
  simp [UrlStore.revoke]

theorem UrlStore.mem_live_create {α : Type} (s : UrlStore α) (a : Asset α)
    (e : Nat × Asset α) :
    e ∈ (s.create a).2.live ↔ e ∈ s.live ∨ e = (s.next, a) := by
  simp [UrlStore.create]

theorem UrlStore.ok_revoke {α : Type} (s : UrlStore α) (hok : s.Ok) (url : Nat)
    (hlive : ∃ a, (url, a) ∈ s.live) : (s.revoke url).Ok := by
  obtain ⟨h1, h2, h3, h4, h5⟩ := hok
  obtain ⟨a, ha⟩ := hlive
  refine ⟨?_, ?_, ?_, ?_, ?_⟩
  · intro e he
    exact h1 e ((s.mem_live_revoke url e).1 he).1
  · intro h hh
    simp only [UrlStore.revoke, List.mem_append, List.mem_singleton] at hh
    rcases hh with hh | rfl
    · exact h2 h hh
    · exact h1 _ ha
  · intro h hh e he
    obtain ⟨hel, hne⟩ := (s.mem_live_revoke url e).1 he
    simp only [UrlStore.revoke, List.mem_append, List.mem_singleton] at hh
    rcases hh with hh | rfl
    · exact h3 h hh e hel
    · exact hne
  · simp only [UrlStore.revoke]
    refine List.Nodup.append h4 (List.nodup_singleton _) ?_
    intro x hx hx'
    rw [List.mem_singleton] at hx'
    subst hx'
    exact h3 x hx _ ha rfl
  · simp only [UrlStore.revoke]
    exact h5.sublist ((List.filter_sublist _).map _)

theorem UrlStore.ok_create {α : Type} (s : UrlStore α) (hok : s.Ok) (a : Asset α) :
    (s.create a).2.Ok := by
  obtain ⟨h1, h2, h3, h4, h5⟩ := hok
  refine ⟨?_, ?_, ?_, h4, ?_⟩
  · intro e he
    rcases (s.mem_live_create a e).1 he with he | rfl
    · exact Nat.lt_succ_of_lt (h1 e he)
    · exact Nat.lt_succ_self _
  · intro h hh
    exact Nat.lt_succ_of_lt (h2 h hh)
  · intro h hh e he
    rcases (s.mem_live_create a e).1 he with he | rfl
    · exact h3 h hh e he
    · exact (Nat.ne_of_lt (h2 h hh)).symm
  · simp only [UrlStore.create, List.map_append, List.map_cons, List.map_nil]
    refine List.Nodup.append h5 (List.nodup_singleton _) ?_
    intro x hx hx'
    rw [List.mem_singleton] at hx'
    subst hx'
    obtain ⟨e, he, heq⟩ := List.mem_map.1 hx
    have := h1 e he
    rw [heq] at this
    exact Nat.lt_irrefl _ this

/-- A live handle was created for one asset only. -/
theorem UrlStore.asset_unique {α : Type} (s : UrlStore α) (hok : s.Ok) {h : Nat}
    {a b : Asset α} (ha : (h, a) ∈ s.live) (hb : (h, b) ∈ s.live) : a = b := by
  have := List.inj_on_of_nodup_map hok.2.2.2.2 ha hb rfl
  exact (Prod.mk.inj this).2

theorem AppState.audioUrl_some {α : Type} [DecidableEq α] (st : AppState α) (file : α)
    (url : Nat) (h : st.audioUrl file = some url) : (file, url) ∈ st.audioUrls := by
  simp only [AppState.audioUrl, Option.map_eq_some'] at h
  obtain ⟨e, he, rfl⟩ := h
  have hmem := List.mem_of_find?_eq_some he
  have hkey := List.find?_some he
  simp only [decide_eq_true_eq] at hkey
  rw [← hkey]
  exact hmem

theorem AppState.audioUrl_none {α : Type} [DecidableEq α] (st : AppState α) (file : α)
    (h : st.audioUrl file = none) : ∀ e ∈ st.audioUrls, e.1 ≠ file := by
  simp only [AppState.audioUrl, Option.map_eq_none', List.find?_eq_none,
    decide_eq_true_eq] at h
  exact h

theorem AppState.audioUrl_isSome_false {α : Type} [DecidableEq α] (st : AppState α)
    (file : α) (h : ¬ (st.audioUrl file).isSome = true) : st.audioUrl file = none := by
  cases hx : st.audioUrl file with
  | none => rfl
  | some u => rw [hx] at h; simp at h

theorem Session.inv_init (α : Type) : (Session.init α).urls.Ok ∧ (Session.init α).Linked := by
  simp [Session.init, UrlStore.Ok, Session.Linked]

theorem Session.inv_addFiles {α : Type} (w : Session α) (files : List α)
    (h : w.urls.Ok ∧ w.Linked) : (w.addFiles files).urls.Ok ∧ (w.addFiles files).Linked :=
  h

theorem Session.inv_cleanupAudioUrl {α : Type} [DecidableEq α] (w : Session α) (file : α)
    (h : w.urls.Ok ∧ w.Linked) :
    (w.cleanupAudioUrl file).urls.Ok ∧ (w.cleanupAudioUrl file).Linked := by
  obtain ⟨hok, hlink, hkeys⟩ := h
  unfold Session.cleanupAudioUrl
  cases hu : w.state.audioUrl file with
  | none => exact ⟨hok, hlink, hkeys⟩
  | some url =>
    have hmem := w.state.audioUrl_some file url hu
    have hlive : (url, Asset.track file) ∈ w.urls.live :=
      (hlink url _).2 (Or.inl ⟨file, rfl, hmem⟩)
    refine ⟨w.urls.ok_revoke hok url ⟨_, hlive⟩, ?_, ?_⟩
    · intro h a
      simp only [UrlStore.mem_live_revoke, List.mem_filter, decide_eq_true_eq]
      constructor
      · rintro ⟨hl, hne⟩
        rcases (hlink h a).1 hl with ⟨f, rfl, hf⟩ | ⟨f, rfl, hf⟩
        · refine Or.inl ⟨f, rfl, hf, ?_⟩
          intro hff
          subst hff
          have := List.inj_on_of_nodup_map hkeys hf hmem rfl
          exact hne (Prod.mk.inj this).2
        · exact Or.inr ⟨f, rfl, hf⟩
      · rintro (⟨f, rfl, hf, hne⟩ | ⟨f, rfl, hf⟩)
        · have hl := (hlink h _).2 (Or.inl ⟨f, rfl, hf⟩)
          refine ⟨hl, ?_⟩
          intro hh
          subst hh
          have := w.urls.asset_unique hok hl hlive
          exact hne (Asset.track.inj this)
        · have hl := (hlink h _).2 (Or.inr ⟨f, rfl, hf⟩)
          refine ⟨hl, ?_⟩
          intro hh
          subst hh
          have := w.urls.asset_unique hok hl hlive
          cases this
    · exact hkeys.sublist ((List.filter_sublist _).map _)

theorem Session.inv_removeFile {α : Type} [DecidableEq α] (w : Session α) (index : Nat)
    (h : w.urls.Ok ∧ w.Linked) :
    (w.removeFile index).urls.Ok ∧ (w.removeFile index).Linked := by
  unfold Session.removeFile
  cases w.state.currentFiles[index]? with
  | none => exact h
  | some file => exact w.inv_cleanupAudioUrl file h

theorem Session.inv_getOrCreateAudioUrl {α : Type} [DecidableEq α] (w : Session α)
    (file : α) (h : w.urls.Ok ∧ w.Linked) :
    (w.getOrCreateAudioUrl file).urls.Ok ∧ (w.getOrCreateAudioUrl file).Linked := by
  obtain ⟨hok, hlink, hkeys⟩ := h
  unfold Session.getOrCreateAudioUrl
  split
  · exact ⟨hok, hlink, hkeys⟩
  · rename_i hnone
    have hfree := w.state.audioUrl_none file (w.state.audioUrl_isSome_false file hnone)
    refine ⟨w.urls.ok_create hok _, ?_, ?_⟩
    · intro h a
      simp only [UrlStore.mem_live_create, List.mem_append, List.mem_singleton]
      constructor
      · rintro (hl | heq)
        · rcases (hlink h a).1 hl with ⟨f, rfl, hf⟩ | ⟨f, rfl, hf⟩
          · exact Or.inl ⟨f, rfl, Or.inl hf⟩
          · exact Or.inr ⟨f, rfl, hf⟩
        · cases heq
          exact Or.inl ⟨file, rfl, Or.inr rfl⟩
      · rintro (⟨f, rfl, hf | hf⟩ | ⟨f, rfl, hf⟩)
        · exact Or.inl ((hlink h _).2 (Or.inl ⟨f, rfl, hf⟩))
        · cases hf
          exact Or.inr rfl
        · exact Or.inl ((hlink h _).2 (Or.inr ⟨f, rfl, hf⟩))
    · simp only [List.map_append, List.map_cons, List.map_nil]
      refine List.Nodup.append hkeys (List.nodup_singleton _) ?_
      intro x hx hx'
      rw [List.mem_singleton] at hx'
      obtain ⟨e, he, heq⟩ := List.mem_map.1 hx
      exact hfree e he (heq.trans hx')

/-- Revoking pairwise distinct live handles one after the other keeps the store
consistent and removes exactly these handles from the live ones. -/
theorem UrlStore.foldl_revoke {α : Type} (hs : List Nat) :
    ∀ s : UrlStore α, s.Ok → hs.Nodup → (∀ h ∈ hs, ∃ a, (h, a) ∈ s.live) →
      (hs.foldl UrlStore.revoke s).Ok ∧
      ∀ e, e ∈ (hs.foldl UrlStore.revoke s).live ↔ e ∈ s.live ∧ e.1 ∉ hs := by
  induction hs with
  | nil => intro s hok _ _; exact ⟨hok, by simp⟩
  | cons h hs ih =>
    intro s hok hnd hlive
    rw [List.nodup_cons] at hnd
    have hok1 := s.ok_revoke hok h (hlive h (List.mem_cons_self _ _))
    have hlive1 : ∀ h' ∈ hs, ∃ a, (h', a) ∈ (s.revoke h).live := by
      intro h' hh'
      obtain ⟨a, ha⟩ := hlive h' (List.mem_cons_of_mem _ hh')
      refine ⟨a, (s.mem_live_revoke h _).2 ⟨ha, ?_⟩⟩
      intro heq
      exact hnd.1 (heq ▸ hh')
    obtain ⟨hok2, hmem2⟩ := ih (s.revoke h) hok1 hnd.2 hlive1
    refine ⟨hok2, ?_⟩
    intro e
    rw [List.foldl_cons, hmem2 e, s.mem_live_revoke h e, List.mem_cons]
    constructor
    · rintro ⟨⟨h1, h2⟩, h3⟩
      exact ⟨h1, fun hc => hc.elim h2 h3⟩
    · rintro ⟨h1, h2⟩
      exact ⟨⟨h1, fun hc => h2 (Or.inl hc)⟩, fun hc => h2 (Or.inr hc)⟩

theorem Session.audioHandles_nodup {α : Type} (w : Session α) (h : w.urls.Ok ∧ w.Linked) :
    (w.state.audioUrls.map Prod.snd).Nodup := by
  obtain ⟨hok, hlink, hkeys⟩ := h
  refine List.Nodup.map_on ?_ (List.Nodup.of_map _ hkeys)
  intro x hx y hy hxy
  have hlx : (x.2, Asset.track x.1) ∈ w.urls.live := (hlink _ _).2 (Or.inl ⟨x.1, rfl, hx⟩)
  have hly : (x.2, Asset.track y.1) ∈ w.urls.live := by
    rw [hxy]
    exact (hlink _ _).2 (Or.inl ⟨y.1, rfl, hy⟩)
  have := Asset.track.inj (w.urls.asset_unique hok hlx hly)
  exact Prod.ext this hxy

/-- Releasing the icon URL, if there is one, and forgetting the icon. -/
theorem Session.inv_dropIcon {α : Type} (w : Session α) (h : w.urls.Ok ∧ w.Linked) :
    (match w.state.selectedIcon with
      | some icon => w.urls.revoke icon.2
      | none => w.urls).Ok ∧
    Session.Linked
      { state := { w.state with selectedIcon := none },
        urls := match w.state.selectedIcon with
          | some icon => w.urls.revoke icon.2
          | none => w.urls } := by
  obtain ⟨hok, hlink, hkeys⟩ := h
  cases hi : w.state.selectedIcon with
  | none =>
    refine ⟨hok, ?_, hkeys⟩
    intro h a
    rw [hlink h a, hi]
  | some icon =>
    obtain ⟨fi, ui⟩ := icon
    have hlive : (ui, Asset.icon fi) ∈ w.urls.live := (hlink _ _).2 (Or.inr ⟨fi, rfl, hi⟩)
    refine ⟨w.urls.ok_revoke hok ui ⟨_, hlive⟩, ?_, hkeys⟩
    intro h a
    simp only [UrlStore.mem_live_revoke]
    constructor
    · rintro ⟨hl, hne⟩
      rcases (hlink h a).1 hl with ⟨f, rfl, hf⟩ | ⟨f, rfl, hf⟩
      · exact Or.inl ⟨f, rfl, hf⟩
      · rw [hi] at hf
        cases hf
        exact absurd rfl hne
    · rintro (⟨f, rfl, hf⟩ | ⟨f, rfl, hf⟩)
      · have hl := (hlink h _).2 (Or.inl ⟨f, rfl, hf⟩)
        refine ⟨hl, ?_⟩
        intro hh
        subst hh
        have := w.urls.asset_unique hok hl hlive
        cases this
      · cases hf

theorem Session.inv_setSelectedIcon {α : Type} (w : Session α) (file : Option α)
    (h : w.urls.Ok ∧ w.Linked) :
    (w.setSelectedIcon file).urls.Ok ∧ (w.setSelectedIcon file).Linked := by
  obtain ⟨hok1, hlink1, hkeys1⟩ := w.inv_dropIcon h
  unfold Session.setSelectedIcon
  cases file with
  | none => exact ⟨hok1, hlink1, hkeys1⟩
  | some f =>
    refine ⟨UrlStore.ok_create _ hok1 _, ?_, hkeys1⟩
    intro h a
    simp only [UrlStore.mem_live_create]
    constructor
    · rintro (hl | heq)
      · rcases (hlink1 h a).1 hl with ⟨g, rfl, hg⟩ | ⟨g, rfl, hg⟩
        · exact Or.inl ⟨g, rfl, hg⟩
        · cases hg
      · cases heq
        exact Or.inr ⟨f, rfl, rfl⟩
    · rintro (⟨g, rfl, hg⟩ | ⟨g, rfl, hg⟩)
      · exact Or.inl ((hlink1 h _).2 (Or.inl ⟨g, rfl, hg⟩))
      · cases hg
        exact Or.inr rfl

/-- After `cleanup()` no handle is live, and the invariant holds. -/
theorem Session.inv_cleanup {α : Type} (w : Session α) (h : w.urls.Ok ∧ w.Linked) :
    ((w.cleanup).urls.Ok ∧ (w.cleanup).Linked) ∧ (w.cleanup).urls.live = [] := by
  have hnd := w.audioHandles_nodup h
  obtain ⟨hok, hlink, hkeys⟩ := h
  have hall : ∀ u ∈ w.state.audioUrls.map Prod.snd, ∃ a, (u, a) ∈ w.urls.live := by
    intro u hu
    obtain ⟨e, he, rfl⟩ := List.mem_map.1 hu
    exact ⟨Asset.track e.1, (hlink _ _).2 (Or.inl ⟨e.1, rfl, he⟩)⟩
  obtain ⟨hok1, hmem1⟩ := UrlStore.foldl_revoke _ w.urls hok hnd hall
  have hnotrack : ∀ (u : Nat) (f : α),
      (u, Asset.track f) ∉ ((w.state.audioUrls.map Prod.snd).foldl UrlStore.revoke w.urls).live := by
    intro u f hl
    obtain ⟨hl0, hnot⟩ := (hmem1 _).1 hl
    rcases (hlink u _).1 hl0 with ⟨g, hg, hgm⟩ | ⟨g, hg, _⟩
    · exact hnot (List.mem_map.2 ⟨(g, u), hgm, rfl⟩)
    · cases hg
  unfold Session.cleanup
  cases hi : w.state.selectedIcon with
  | none =>
    have hnil : ((w.state.audioUrls.map Prod.snd).foldl UrlStore.revoke w.urls).live = [] := by
      rw [List.eq_nil_iff_forall_not_mem]
      rintro ⟨u, a⟩ hl
      obtain ⟨hl0, _⟩ := (hmem1 _).1 hl
      rcases (hlink u a).1 hl0 with ⟨g, rfl, _⟩ | ⟨g, _, hgi⟩
      · exact hnotrack u g hl
      · rw [hi] at hgi
        cases hgi
    refine ⟨⟨hok1, ?_, List.nodup_nil⟩, hnil⟩
    intro u a
    simp only [hnil]
    constructor
    · intro hm
      cases hm
    · rintro (⟨g, _, hg⟩ | ⟨g, _, hg⟩)
      · cases hg
      · have hg' : w.state.selectedIcon = some (g, u) := hg
        rw [hi] at hg'
        cases hg'
  | some icon =>
    obtain ⟨fi, ui⟩ := icon
    have hlive0 : (ui, Asset.icon fi) ∈ w.urls.live := (hlink _ _).2 (Or.inr ⟨fi, rfl, hi⟩)
    have hlive1 : (ui, Asset.icon fi) ∈
        ((w.state.audioUrls.map Prod.snd).foldl UrlStore.revoke w.urls).live := by
      refine (hmem1 _).2 ⟨hlive0, ?_⟩
      intro hin
      obtain ⟨e, he, heq⟩ := List.mem_map.1 hin
      have hl : (ui, Asset.track e.1) ∈ w.urls.live := by
        have := (hlink e.2 _).2 (Or.inl ⟨e.1, rfl, he⟩)
        rwa [heq] at this
      have := w.urls.asset_unique hok hl hlive0
      cases this
    have hnil : (((w.state.audioUrls.map Prod.snd).foldl UrlStore.revoke w.urls).revoke
        ui).live = [] := by
      rw [List.eq_nil_iff_forall_not_mem]
      rintro ⟨u, a⟩ hl
      obtain ⟨hl1, hne⟩ := (UrlStore.mem_live_revoke _ _ _).1 hl
      obtain ⟨hl0, _⟩ := (hmem1 _).1 hl1
      rcases (hlink u a).1 hl0 with ⟨g, rfl, _⟩ | ⟨g, _, hgi⟩
      · exact hnotrack u g hl1
      · rw [hi] at hgi
        cases hgi
        exact hne rfl
    refine ⟨⟨UrlStore.ok_revoke _ hok1 ui ⟨_, hlive1⟩, ?_, List.nodup_nil⟩, hnil⟩
    intro u a
    simp only [hnil]
    constructor
    · intro hm
      cases hm
    · rintro (⟨g, _, hg⟩ | ⟨g, _, hg⟩) <;> cases hg

theorem Session.inv_call {α : Type} [DecidableEq α] (w : Session α) (c : Call α)
    (h : w.urls.Ok ∧ w.Linked) : (w.call c).urls.Ok ∧ (w.call c).Linked := by
  cases c with
  | addFiles files => exact w.inv_addFiles files h
  | removeFile index => exact w.inv_removeFile index h
  | cleanupAudioUrl file => exact w.inv_cleanupAudioUrl file h
  | getOrCreateAudioUrl file => exact w.inv_getOrCreateAudioUrl file h
  | setSelectedIcon file => exact w.inv_setSelectedIcon file h
  | cleanup => exact (w.inv_cleanup h).1

/-- Every session reached by calls on a fresh `AppState` satisfies the invariant. -/
theorem Session.inv_run {α : Type} [DecidableEq α] (calls : List (Call α)) :
    (Session.run calls).urls.Ok ∧ (Session.run calls).Linked := by
  have hgen : ∀ (cs : List (Call α)) (w : Session α), (w.urls.Ok ∧ w.Linked) →
      (cs.foldl Session.call w).urls.Ok ∧ (cs.foldl Session.call w).Linked := by
    intro cs
    induction cs with
    | nil => intro w h; exact h
    | cons c cs ih => intro w h; exact ih (w.call c) (w.inv_call c h)
  exact hgen calls _ (Session.inv_init α)

theorem Session.cleanupAudioUrl_no_key {α : Type} [DecidableEq α] (w : Session α) (file : α) :
    ∀ e ∈ (w.cleanupAudioUrl file).state.audioUrls, e.1 ≠ file := by
  unfold Session.cleanupAudioUrl
  cases hu : w.state.audioUrl file with
  | none => exact w.state.audioUrl_none file hu
  | some url =>
    intro e he
    simp only [List.mem_filter, decide_eq_true_eq] at he
    exact he.2

theorem Session.cleanupAudioUrl_currentFiles {α : Type} [DecidableEq α] (w : Session α)
    (file : α) : (w.cleanupAudioUrl file).state.currentFiles = w.state.currentFiles := by
  unfold Session.cleanupAudioUrl
  cases w.state.audioUrl file <;> rfl

/-- The track list after `removeFile(index)` is the list without its element at
`index`. -/
theorem Session.removeFile_currentFiles {α : Type} [DecidableEq α] (w : Session α)
    (index : Nat) :
    (w.removeFile index).state.currentFiles = w.state.currentFiles.eraseIdx index := by
  unfold Session.removeFile
  cases w.state.currentFiles[index]? with
  | none => rfl
  | some file =>
    simp only
    rw [w.cleanupAudioUrl_currentFiles file]

/-- The remove button of a preview item removes the track at the item's index in the
track list, whichever track the item shows. -/
theorem clickRemove_currentFiles (w : Session File) (item : PreviewItem) :
    (clickRemove w item).state.currentFiles = w.state.currentFiles.eraseIdx item.index :=
  w.removeFile_currentFiles item.index

/-- A scan that ends on a disc ends on the first disc of the list with the least
difference: every unused eligible disc before it has a strictly larger difference. -/
theorem scan_first (elig : Disc → Bool) (used : List String) (d : ℚ) :
    ∀ (l : List Disc) (best : Best),
      l.foldl (scanStep elig used d) best = best ∨
      (∃ (l₁ : List Disc) (disc : Disc) (l₂ : List Disc), l = l₁ ++ disc :: l₂ ∧
        disc.name ∉ used ∧ elig disc = true ∧
        l.foldl (scanStep elig used d) best =
          { bestDisc := some disc.name, bestDiff := some (absDiff disc d) } ∧
        diffLt (absDiff disc d) best.bestDiff = true ∧
        ∀ disc' ∈ l₁, disc'.name ∉ used → elig disc' = true →
          absDiff disc d < absDiff disc' d) := by
  intro l
  induction l with
  | nil => intro best; left; rfl
  | cons a l ih =>
    intro best
    rw [List.foldl_cons]
    by_cases htake : a.name ∉ used ∧ elig a = true ∧ diffLt (absDiff a d) best.bestDiff = true
    · obtain ⟨hu, he, hlt⟩ := htake
      have hstep : scanStep elig used d best a =
          { bestDisc := some a.name, bestDiff := some (absDiff a d) } := by
        simp [scanStep, hu, he, hlt]
      rw [hstep]
      right
      rcases ih { bestDisc := some a.name, bestDiff := some (absDiff a d) } with
        heq | ⟨l₁, disc, l₂, hl, hdu, hde, heq, hdlt, hfirst⟩
      · exact ⟨[], a, l, rfl, hu, he, heq, hlt, by simp⟩
      · have hda : absDiff disc d < absDiff a d := diffLt_some.1 hdlt
        refine ⟨a :: l₁, disc, l₂, by rw [hl]; rfl, hdu, hde, heq,
          diffLt_trans (le_of_lt hda) hlt, ?_⟩
        intro disc' hmem' hu' he'
        rcases List.mem_cons.1 hmem' with rfl | hmem'
        · exact hda
        · exact hfirst disc' hmem' hu' he'
    · have hstep : scanStep elig used d best a = best := by
        unfold scanStep
        by_cases hu : a.name ∈ used
        · simp [hu]
        · have : ¬ (elig a = true ∧ diffLt (absDiff a d) best.bestDiff = true) :=
            fun h => htake ⟨hu, h.1, h.2⟩
          simp [hu, this]
      rw [hstep]
      rcases ih best with heq | ⟨l₁, disc, l₂, hl, hdu, hde, heq, hdlt, hfirst⟩
      · exact Or.inl heq
      · right
        refine ⟨a :: l₁, disc, l₂, by rw [hl]; rfl, hdu, hde, heq, hdlt, ?_⟩
        intro disc' hmem' hu' he'
        rcases List.mem_cons.1 hmem' with rfl | hmem'
        · have hnot : diffLt (absDiff disc' d) best.bestDiff = false := by
            by_contra hc
            exact htake ⟨hu', he', by simpa using hc⟩
          cases hb : best.bestDiff with
          | none => rw [hb] at hnot; simp [diffLt] at hnot
          | some b =>
            rw [hb] at hnot hdlt
            simp only [diffLt, decide_eq_true_eq, decide_eq_false_iff_not, not_lt] at hnot hdlt
            exact lt_of_lt_of_le hdlt hnot
        · exact hfirst disc' hmem' hu' he'

/-- The search ends on `null`, or on the first unused disc of its duration: no unused
disc of the same canonical duration stands before the chosen one in the list. -/
theorem chooseDisc_first (discs : List Disc) (used : List String) (d : ℚ)
    (hne : ∀ disc ∈ discs, disc.name ≠ "") :
    chooseDisc discs used d = { bestDisc := none, bestDiff := none } ∨
    (∃ (l₁ : List Disc) (disc : Disc) (l₂ : List Disc), discs = l₁ ++ disc :: l₂ ∧
      disc.name ∉ used ∧
      chooseDisc discs used d =
        { bestDisc := some disc.name, bestDiff := some (absDiff disc d) } ∧
      ∀ disc' ∈ l₁, disc'.name ∉ used → disc'.duration ≠ disc.duration) := by
  have hsame : ∀ a b : Disc, a.duration = b.duration → absDiff a d = absDiff b d := by
    intro a b h
    simp [absDiff, h]
  rcases scan_first (fun disc => decide (d ≤ (disc.duration : ℚ))) used d discs
      { bestDisc := none, bestDiff := none } with
    hA | ⟨l₁, disc, l₂, hl, hdu, hde, heq, _, hfirst⟩
  · rw [← passAStep_eq] at hA
    rcases scan_first (fun _ => true) used d discs { bestDisc := none, bestDiff := none } with
      hB | ⟨l₁, disc, l₂, hl, hdu, _, heq, _, hfirst⟩
    · left
      rw [← passBStep_eq] at hB
      simp [chooseDisc, hA, truthy, hB]
    · right
      refine ⟨l₁, disc, l₂, hl, hdu, ?_, ?_⟩
      · rw [← passBStep_eq] at heq
        simp [chooseDisc, hA, truthy, heq]
      · intro disc' hmem' hu' hdur
        have := hfirst disc' hmem' hu' rfl
        rw [hsame disc' disc hdur] at this
        exact lt_irrefl _ this
  · right
    have hmem : disc ∈ discs := by rw [hl]; simp
    refine ⟨l₁, disc, l₂, hl, hdu, ?_, ?_⟩
    · rw [← passAStep_eq] at heq
      have hn := hne disc hmem
      simp [chooseDisc, heq, truthy, hn]
    · intro disc' hmem' hu' hdur
      have he' : decide (d ≤ (disc'.duration : ℚ)) = true := by
        rw [hdur]; exact hde
      have := hfirst disc' hmem' hu' he'
      rw [hsame disc' disc hdur] at this
      exact lt_irrefl _ this

/-! ## Claims -/

/-- C1: for every list of tracks whose probes all resolve to a non-negative duration,
`assignDiscsOptimal` returns exactly `min(n, 21)` assignments; no disc name occurs
twice among them, and their files are the input files at pairwise distinct positions. -/
theorem assignDiscsOptimal_batch (getAudioDuration : File → Option ℚ) (files : List File)
    (hfin : ∀ f ∈ files, ∃ d, getAudioDuration f = some d ∧ 0 ≤ d) :
    ∃ out, assignDiscsOptimal getAudioDuration files = some out ∧
      out.length = min files.length 21 ∧
      (out.map Assignment.disc).Nodup ∧
      ∃ idx : List (Fin files.length), idx.Nodup ∧
        out.map Assignment.file = idx.map files.get := by
  obtain ⟨fds, hp, hfiles, _⟩ := probeAll_of_all getAudioDuration files
    (fun f hf => (hfin f hf).imp fun _ h => h.1)
  refine ⟨assignResolved fds, assignDiscsOptimal_of_probeAll _ _ _ hp, ?_,
    assignResolved_discs_nodup fds, ?_⟩
  · rw [assignResolved_length, ← hfiles, List.length_map]
  · apply exists_positions_of_subperm
    have htr := congrArg (List.map Prod.fst) (assignResolved_tracks fds)
    simp only [List.map_map] at htr
    have hfile : (assignResolved fds).map Assignment.file =
        ((sortByDurationDesc fds).take 21).map FileDuration.file := htr
    rw [hfile, ← hfiles]
    exact (((List.take_sublist 21 _).map FileDuration.file).subperm).trans
      ((sortByDurationDesc_perm fds).map FileDuration.file).subperm

/-- Two probed tracks: both are assigned, on different discs. -/
theorem assignDiscsOptimal_batch_witness :
    (∀ f ∈ [File.mk "a.ogg" [79, 103], File.mk "b.ogg" [79]],
      ∃ d, (fun _ : File => some (200 : ℚ)) f = some d ∧ 0 ≤ d) ∧
    ∃ out, assignDiscsOptimal (fun _ => some 200)
        [File.mk "a.ogg" [79, 103], File.mk "b.ogg" [79]] = some out ∧
      out.length = min [File.mk "a.ogg" [79, 103], File.mk "b.ogg" [79]].length 21 ∧
      (out.map Assignment.disc).Nodup ∧
      ∃ idx : List (Fin [File.mk "a.ogg" [79, 103], File.mk "b.ogg" [79]].length),
        idx.Nodup ∧
        out.map Assignment.file =
          idx.map [File.mk "a.ogg" [79, 103], File.mk "b.ogg" [79]].get :=
  ⟨fun _ _ => ⟨200, rfl, by norm_num⟩,
    assignDiscsOptimal_batch (fun _ => some 200)
      [File.mk "a.ogg" [79, 103], File.mk "b.ogg" [79]]
      (fun _ _ => ⟨200, rfl, by norm_num⟩)⟩

/-- C2 (Pass A): let `fd` be the `k`-th track in processing order and `used` the discs
of the assignments made before it.  If some unused disc has canonical duration at
least `fd.duration`, then the `k`-th assignment puts `fd` on an unused disc that
covers it, and no unused covering disc has a smaller slack. -/
theorem passA_tightest_cover (getAudioDuration : File → Option ℚ) (files : List File)
    (fds : List FileDuration) (hp : probeAll getAudioDuration files = some fds)
    (k : Nat) (fd : FileDuration) (hfd : (sortByDurationDesc fds)[k]? = some fd)
    (used : List String)
    (hused : used = ((assignResolved fds).take k).map Assignment.disc)
    (hcov : ∃ disc ∈ availableDiscs, disc.name ∉ used ∧ fd.duration ≤ (disc.duration : ℚ)) :
    assignDiscsOptimal getAudioDuration files = some (assignResolved fds) ∧
    ∃ disc ∈ availableDiscs, disc.name ∉ used ∧ fd.duration ≤ (disc.duration : ℚ) ∧
      (assignResolved fds)[k]? =
        some { file := fd.file, disc := disc.name, userDuration := fd.duration,
               discDuration := some disc.duration,
               difference := some ((disc.duration : ℚ) - fd.duration) } ∧
      ∀ disc' ∈ availableDiscs, disc'.name ∉ used → fd.duration ≤ (disc'.duration : ℚ) →
        (disc.duration : ℚ) - fd.duration ≤ (disc'.duration : ℚ) - fd.duration := by
  refine ⟨assignDiscsOptimal_of_probeAll _ _ _ hp, ?_⟩
  subst hused
  obtain ⟨disc, hmem, hu, hc, hsome, hmin⟩ :=
    chooseDisc_cover availableDiscs _ fd.duration availableDiscs_ne hcov
  have habs : ∀ d' : Disc, fd.duration ≤ (d'.duration : ℚ) →
      absDiff d' fd.duration = (d'.duration : ℚ) - fd.duration := by
    intro d' h
    exact abs_of_nonneg (sub_nonneg.2 h)
  refine ⟨disc, hmem, hu, hc, ?_, ?_⟩
  · have := kth_of_some availableDiscs availableDiscs_ne availableDiscs_nodup
      (sortByDurationDesc fds) k fd hfd disc.name _ (availableDiscs_ne disc hmem) hu hsome
    rw [availableDiscs_lookup disc hmem, habs disc hc] at this
    exact this
  · intro disc' hmem' hu' hc'
    have := hmin disc' hmem' hu' hc'
    rwa [habs disc hc, habs disc' hc'] at this

/-- One track of 200 s: the tightest covering disc of the catalog, "relic" (219 s), is
at least as tight as every other covering disc. -/
theorem passA_tightest_cover_witness :
    assignDiscsOptimal (fun _ => some 200) [File.mk "a.ogg" [79]] =
      some (assignResolved [FileDuration.mk (File.mk "a.ogg" [79]) 200]) ∧
    ∃ disc ∈ availableDiscs, disc.name ∉ ([] : List String) ∧
      (FileDuration.mk (File.mk "a.ogg" [79]) 200).duration ≤ (disc.duration : ℚ) ∧
      (assignResolved [FileDuration.mk (File.mk "a.ogg" [79]) 200])[0]? =
        some { file := (FileDuration.mk (File.mk "a.ogg" [79]) 200).file,
               disc := disc.name,
               userDuration := (FileDuration.mk (File.mk "a.ogg" [79]) 200).duration,
               discDuration := some disc.duration,
               difference := some ((disc.duration : ℚ) -
                 (FileDuration.mk (File.mk "a.ogg" [79]) 200).duration) } ∧
      ∀ disc' ∈ availableDiscs, disc'.name ∉ ([] : List String) →
        (FileDuration.mk (File.mk "a.ogg" [79]) 200).duration ≤ (disc'.duration : ℚ) →
        (disc.duration : ℚ) - (FileDuration.mk (File.mk "a.ogg" [79]) 200).duration ≤
          (disc'.duration : ℚ) - (FileDuration.mk (File.mk "a.ogg" [79]) 200).duration :=
  passA_tightest_cover (fun _ => some 200) [File.mk "a.ogg" [79]]
    [FileDuration.mk (File.mk "a.ogg" [79]) 200] rfl 0
    (FileDuration.mk (File.mk "a.ogg" [79]) 200) rfl [] rfl
    ⟨Disc.mk "relic" 219, by decide, by simp, by norm_num⟩

/-- C3 (Pass B): let `fd` be the `k`-th track in processing order and `used` the discs
of the assignments made before it.  If every unused disc is shorter than the track and
an unused disc remains, the `k`-th assignment puts `fd` on an unused disc whose
absolute difference to the track is least among all unused discs.  The track gets no
assignment exactly when every disc of the catalog is already used. -/
theorem passB_closest_or_dropped (getAudioDuration : File → Option ℚ) (files : List File)
    (fds : List FileDuration) (hp : probeAll getAudioDuration files = some fds)
    (k : Nat) (fd : FileDuration) (hfd : (sortByDurationDesc fds)[k]? = some fd)
    (used : List String)
    (hused : used = ((assignResolved fds).take k).map Assignment.disc) :
    assignDiscsOptimal getAudioDuration files = some (assignResolved fds) ∧
    ((∀ disc ∈ availableDiscs, disc.name ∉ used → (disc.duration : ℚ) < fd.duration) →
      (∃ disc ∈ availableDiscs, disc.name ∉ used) →
      ∃ disc ∈ availableDiscs, disc.name ∉ used ∧
        (assignResolved fds)[k]? =
          some { file := fd.file, disc := disc.name, userDuration := fd.duration,
                 discDuration := some disc.duration,
                 difference := some |(disc.duration : ℚ) - fd.duration| } ∧
        ∀ disc' ∈ availableDiscs, disc'.name ∉ used →
          |(disc.duration : ℚ) - fd.duration| ≤ |(disc'.duration : ℚ) - fd.duration|) ∧
    ((assignResolved fds)[k]? = none ↔ ∀ disc ∈ availableDiscs, disc.name ∈ used) := by
  refine ⟨assignDiscsOptimal_of_probeAll _ _ _ hp, ?_, ?_⟩
  · intro hno hrem
    subst hused
    obtain ⟨disc, hmem, hu, hsome, hmin⟩ :=
      chooseDisc_fallback availableDiscs _ fd.duration
        (fun disc hm hu => not_le.2 (hno disc hm hu)) hrem
    refine ⟨disc, hmem, hu, ?_, hmin⟩
    have := kth_of_some availableDiscs availableDiscs_ne availableDiscs_nodup
      (sortByDurationDesc fds) k fd hfd disc.name _ (availableDiscs_ne disc hmem) hu hsome
    rw [availableDiscs_lookup disc hmem] at this
    exact this
  · subst hused
    rcases chooseDisc_cases availableDiscs
        (((assignResolved fds).take k).map Assignment.disc) fd.duration availableDiscs_ne with
      ⟨hnone, hall⟩ | ⟨disc, hmem, hu, hsome⟩
    · have := kth_of_none availableDiscs availableDiscs_ne availableDiscs_nodup
        (sortByDurationDesc fds) k fd hfd hnone
      exact ⟨fun _ => hall, fun _ => this⟩
    · have := kth_of_some availableDiscs availableDiscs_ne availableDiscs_nodup
        (sortByDurationDesc fds) k fd hfd disc.name _ (availableDiscs_ne disc hmem) hu hsome
      constructor
      · intro hn
        rw [assignResolved, this] at hn
        cases hn
      · intro hall
        exact absurd (hall disc hmem) hu

/-- One track of 400 s while nothing is used: every disc is shorter, so the track goes
to a disc of least absolute difference. -/
theorem passB_closest_or_dropped_witness :
    (∀ disc ∈ availableDiscs, disc.name ∉ ([] : List String) → (disc.duration : ℚ) < 400) ∧
    (∃ disc ∈ availableDiscs, disc.name ∉ ([] : List String)) ∧
    ∃ disc ∈ availableDiscs, disc.name ∉ ([] : List String) ∧
      (assignResolved [FileDuration.mk (File.mk "long.ogg" [79]) 400])[0]? =
        some { file := File.mk "long.ogg" [79], disc := disc.name, userDuration := 400,
               discDuration := some disc.duration,
               difference := some |(disc.duration : ℚ) - 400| } ∧
      ∀ disc' ∈ availableDiscs, disc'.name ∉ ([] : List String) →
        |(disc.duration : ℚ) - 400| ≤ |(disc'.duration : ℚ) - 400| := by
  have hno : ∀ disc ∈ availableDiscs, disc.name ∉ ([] : List String) →
      (disc.duration : ℚ) < 400 := by
    intro disc hmem _
    have hle : disc.duration ≤ 345 :=
      (by decide : ∀ disc ∈ availableDiscs, disc.duration ≤ 345) disc hmem
    have : (disc.duration : ℚ) ≤ 345 := by exact_mod_cast hle
    linarith
  have hrem : ∃ disc ∈ availableDiscs, disc.name ∉ ([] : List String) :=
    ⟨Disc.mk "blocks" 345, by decide, by simp⟩
  exact ⟨hno, hrem,
    (passB_closest_or_dropped (fun _ => some 400) [File.mk "long.ogg" [79]]
      [FileDuration.mk (File.mk "long.ogg" [79]) 400] rfl 0
      (FileDuration.mk (File.mk "long.ogg" [79]) 400) rfl [] rfl).2.1 hno hrem⟩

/-- C5 fails as stated: a 400 s track lands on "blocks" (345 s) and the `difference`
field is 55, not the signed value 345 - 400 = -55. -/
theorem difference_not_signed :
    assignDiscsOptimal (fun _ => some 400) [File.mk "long.ogg" [79]] =
      some [{ file := File.mk "long.ogg" [79], disc := "blocks", userDuration := 400,
              discDuration := some 345, difference := some 55 }] ∧
    (some (55 : ℚ) ≠ some ((345 : ℚ) - 400)) := by
  constructor
  · decide!
  · norm_num

/-- C5, amended: every emitted assignment carries a file of the batch with its probed
duration (`userDuration`), the canonical duration of its disc (`discDuration`), and a
`difference` equal to the absolute value of `discDuration - userDuration`; that is the
signed value when the disc covers the track. -/
theorem assignment_fields (getAudioDuration : File → Option ℚ) (files : List File)
    (out : List Assignment) (h : assignDiscsOptimal getAudioDuration files = some out)
    (a : Assignment) (ha : a ∈ out) :
    a.file ∈ files ∧ getAudioDuration a.file = some a.userDuration ∧
    ∃ disc ∈ availableDiscs, a.disc = disc.name ∧ a.discDuration = some disc.duration ∧
      a.difference = some |(disc.duration : ℚ) - a.userDuration| ∧
      (a.userDuration ≤ (disc.duration : ℚ) →
        a.difference = some ((disc.duration : ℚ) - a.userDuration)) := by
  obtain ⟨fds, hp, hout⟩ := Option.map_eq_some'.1 h
  subst hout
  obtain ⟨hfiles, hprobe⟩ := probeAll_some_iff _ _ _ hp
  obtain ⟨k, hk⟩ := List.mem_iff_getElem?.1 ha
  obtain ⟨fd, disc, hfd, hmem, _, rfl⟩ := assignResolved_getElem fds k a hk
  have hfdmem : fd ∈ fds :=
    (sortByDurationDesc_perm fds).subset (List.getElem?_mem hfd)
  refine ⟨?_, hprobe fd hfdmem, disc, hmem, rfl, rfl, rfl, ?_⟩
  · rw [← hfiles]
    exact List.mem_map_of_mem _ hfdmem
  · intro hc
    simp only [absDiff]
    rw [abs_of_nonneg (sub_nonneg.2 hc)]

/-- A 400 s track: the only assignment has the fields described. -/
theorem assignment_fields_witness :
    (File.mk "long.ogg" [79]) ∈ [File.mk "long.ogg" [79]] ∧
    (fun _ : File => some (400 : ℚ)) (File.mk "long.ogg" [79]) = some 400 ∧
    ∃ disc ∈ availableDiscs, "blocks" = disc.name ∧ some 345 = some disc.duration ∧
      some (55 : ℚ) = some |(disc.duration : ℚ) - 400| ∧
      ((400 : ℚ) ≤ (disc.duration : ℚ) → some (55 : ℚ) = some ((disc.duration : ℚ) - 400)) :=
  assignment_fields (fun _ => some 400) [File.mk "long.ogg" [79]]
    [{ file := File.mk "long.ogg" [79], disc := "blocks", userDuration := 400,
       discDuration := some 345, difference := some 55 }]
    (by decide!)
    { file := File.mk "long.ogg" [79], disc := "blocks", userDuration := 400,
      discDuration := some 345, difference := some 55 }
    (List.mem_singleton.2 rfl)

/-- C4: the tracks of the output, in order, are the first `min(n, 21)` elements of the
input sorted by duration descending, where the sorted list is the permutation of the
input that is non-increasing in duration and keeps tracks of equal duration in input
order.  Hence output durations are non-increasing; with 25 tracks there are 21
assignments and the 4 tracks left out are the last 4 of the sorted order; and when all
durations are equal (for instance 10 s) the output is the first 21 input tracks, the
tracks left out being the last ones of the input. -/
theorem output_order (getAudioDuration : File → Option ℚ) (files : List File)
    (fds : List FileDuration) (hp : probeAll getAudioDuration files = some fds) :
    assignDiscsOptimal getAudioDuration files = some (assignResolved fds) ∧
    fds.map FileDuration.file = files ∧
    (sortByDurationDesc fds).Perm fds ∧
    (sortByDurationDesc fds).Pairwise (fun a b => b.duration ≤ a.duration) ∧
    (∀ d : ℚ, (sortByDurationDesc fds).filter (fun fd => decide (fd.duration = d)) =
      fds.filter (fun fd => decide (fd.duration = d))) ∧
    (assignResolved fds).map (fun a => (a.file, a.userDuration)) =
      ((sortByDurationDesc fds).take (min files.length 21)).map
        (fun fd => (fd.file, fd.duration)) ∧
    ((assignResolved fds).map Assignment.userDuration).Pairwise (fun x y => y ≤ x) ∧
    (files.length = 25 →
      (assignResolved fds).length = 21 ∧
      (sortByDurationDesc fds).map FileDuration.file =
        (assignResolved fds).map Assignment.file ++
          ((sortByDurationDesc fds).drop 21).map FileDuration.file ∧
      ((sortByDurationDesc fds).drop 21).length = 4) ∧
    (∀ d : ℚ, (∀ f ∈ files, getAudioDuration f = some d) →
      (assignResolved fds).map Assignment.file = files.take 21 ∧
      files = (assignResolved fds).map Assignment.file ++ files.drop 21 ∧
      (files.length = 25 → (files.drop 21).length = 4)) := by
  obtain ⟨hfiles, hprobe⟩ := probeAll_some_iff _ _ _ hp
  have hlenf : fds.length = files.length := by rw [← hfiles, List.length_map]
  have hlens : (sortByDurationDesc fds).length = files.length := by
    rw [(sortByDurationDesc_perm fds).length_eq, hlenf]
  have htr := assignResolved_tracks fds
  have hfile : (assignResolved fds).map Assignment.file =
      ((sortByDurationDesc fds).take 21).map FileDuration.file := by
    have := congrArg (List.map Prod.fst) htr
    simpa only [List.map_map] using this
  have hdur : (assignResolved fds).map Assignment.userDuration =
      ((sortByDurationDesc fds).take 21).map FileDuration.duration := by
    have := congrArg (List.map Prod.snd) htr
    simpa only [List.map_map] using this
  refine ⟨assignDiscsOptimal_of_probeAll _ _ _ hp, hfiles, sortByDurationDesc_perm fds,
    sortByDurationDesc_sorted fds, sortByDurationDesc_stable fds, ?_, ?_, ?_, ?_⟩
  · rw [htr]
    congr 1
    rw [List.take_eq_take, hlens]
    omega
  · rw [hdur, List.pairwise_map]
    exact (sortByDurationDesc_sorted fds).sublist (List.take_sublist _ _)
  · intro h25
    refine ⟨by rw [assignResolved_length, hlenf, h25]; rfl, ?_, ?_⟩
    · rw [hfile, ← List.map_append, List.take_append_drop]
    · rw [List.length_drop, hlens, h25]
  · intro d hd
    have hconst : ∀ fd ∈ fds, fd.duration = d := by
      intro fd hfd
      have h1 := hprobe fd hfd
      have hmem : fd.file ∈ files := by
        rw [← hfiles]; exact List.mem_map_of_mem _ hfd
      rw [hd fd.file hmem] at h1
      exact (Option.some.inj h1).symm
    have hout : (assignResolved fds).map Assignment.file = files.take 21 := by
      rw [hfile, sortByDurationDesc_of_const fds d hconst, ← hfiles, List.map_take]
    refine ⟨hout, ?_, ?_⟩
    · rw [hout, List.take_append_drop]
    · intro h25
      rw [List.length_drop, h25]

/-- Twenty-five tracks of 10 s each: the first 21 input tracks are assigned, in input
order, and the last 4 of the input are left out. -/
theorem output_order_witness :
    probeAll (fun _ => some 10) twentyFiveTracks =
      some (twentyFiveTracks.map (fun f => FileDuration.mk f 10)) ∧
    (assignResolved (twentyFiveTracks.map (fun f => FileDuration.mk f 10))).length = 21 ∧
    (assignResolved (twentyFiveTracks.map (fun f => FileDuration.mk f 10))).map
      Assignment.file = twentyFiveTracks.take 21 ∧
    twentyFiveTracks =
      (assignResolved (twentyFiveTracks.map (fun f => FileDuration.mk f 10))).map
        Assignment.file ++ twentyFiveTracks.drop 21 ∧
    (twentyFiveTracks.drop 21).length = 4 := by
  have hp : probeAll (fun _ => some 10) twentyFiveTracks =
      some (twentyFiveTracks.map (fun f => FileDuration.mk f 10)) := by decide!
  have h := output_order (fun _ => some 10) twentyFiveTracks
    (twentyFiveTracks.map (fun f => FileDuration.mk f 10)) hp
  have hlen : twentyFiveTracks.length = 25 := by decide
  obtain ⟨_, _, _, _, _, _, _, h25, hconst⟩ := h
  obtain ⟨h1, h2, h3⟩ := hconst 10 (fun _ _ => rfl)
  exact ⟨hp, (h25 hlen).1, h1, h2, h3 hlen⟩

/-- C6 fails on the code for a major version of 0: the fields 0, 0, 0 are written as
`[1, 0, 0]`, while the clamped input is `[0, 0, 0]`; a negative major version still
gives 0. -/
theorem crearMod_version_zero_major :
    ((crearMod (fun _ => some 100) [File.mk "a.ogg" [79]] "pack" "desc"
        (some 0) (some 0) (some 0) none "u1" "u2").bind manifestOf).map
      (fun m => m.header.version) = some [1, 0, 0] ∧
    [clampVersion 0, clampVersion 0, clampVersion 0] = [0, 0, 0] ∧
    packVersion (some (-5)) (some 0) (some 0) = [0, 0, 0] := by
  refine ⟨by decide!, by decide, by decide⟩

/-- C7: when `crearMod` runs on a non-empty track list whose assignment is `out`, the
entries of the archive under the records folder are, in order, one per assignment: the
path of the assignment's disc with the file's bytes unchanged.  Each of these paths holds
exactly one entry, and the number of entries under the folder is the number of
assignments. -/
theorem crearMod_sound_entries (getAudioDuration : File → Option ℚ)
    (currentFiles : List File) (name description : String) (major minor patch : Option Int)
    (iconBuffer : Option (List Nat)) (uuid1 uuid2 : String) (out : List Assignment)
    (hne : currentFiles ≠ [])
    (hout : assignDiscsOptimal getAudioDuration currentFiles = some out) :
    ∃ zip : Zip,
      crearMod getAudioDuration currentFiles name description major minor patch iconBuffer
        uuid1 uuid2 = some zip ∧
      zip.filter (fun e => inRecordsFolder e.1) =
        out.map (fun a => (soundPath a.disc, Content.buffer a.file.bytes)) ∧
      (∀ a ∈ out, zip.filter (fun e => decide (e.1 = soundPath a.disc)) =
        [(soundPath a.disc, Content.buffer a.file.bytes)]) ∧
      (zip.filter (fun e => inRecordsFolder e.1)).length = out.length := by
  obtain ⟨fds, _, hres⟩ := Option.map_eq_some'.1 hout
  have hnd : (out.map Assignment.disc).Nodup := hres ▸ assignResolved_discs_nodup fds
  have hsnd : ∀ l : List Assignment,
      (l.map (fun a => (soundPath a.disc, Content.buffer a.file.bytes))).filter
        (fun e => inRecordsFolder e.1) =
      l.map (fun a => (soundPath a.disc, Content.buffer a.file.bytes)) := by
    intro l
    rw [List.filter_eq_self]
    intro e he
    obtain ⟨a, _, rfl⟩ := List.mem_map.1 he
    exact inRecordsFolder_soundPath a.disc
  have hicon : (iconEntries iconBuffer).filter (fun e => inRecordsFolder e.1) = [] := by
    cases iconBuffer with
    | none => rfl
    | some buf => rfl
  have hicon' : ∀ p : String, inRecordsFolder p = true →
      (iconEntries iconBuffer).filter (fun e => decide (e.1 = p)) = [] := by
    intro p hp
    cases iconBuffer with
    | none => rfl
    | some buf =>
      rw [List.filter_eq_nil_iff]
      intro e he
      simp only [iconEntries, List.mem_singleton] at he
      rw [he]
      simp only [decide_eq_true_eq]
      intro h
      rw [← h] at hp
      exact absurd hp (by decide)
  have hfilter : (out.map (fun a => (soundPath a.disc, Content.buffer a.file.bytes)) ++
      iconEntries iconBuffer ++
      [("manifest.json", Content.json
        (buildManifest name description (packVersion major minor patch) uuid1 uuid2))]).filter
        (fun e => inRecordsFolder e.1) =
      out.map (fun a => (soundPath a.disc, Content.buffer a.file.bytes)) := by
    rw [List.filter_append, List.filter_append, hsnd, hicon]
    have : inRecordsFolder "manifest.json" = false := by decide
    simp [List.filter_cons, this]
  refine ⟨_, crearMod_eq getAudioDuration currentFiles name description major minor patch
    iconBuffer uuid1 uuid2 out hne hout, hfilter, ?_, ?_⟩
  · intro a ha
    rw [List.filter_append, List.filter_append,
      hicon' _ (inRecordsFolder_soundPath a.disc)]
    have hman : "manifest.json" ≠ soundPath a.disc := by
      intro h
      have := inRecordsFolder_soundPath a.disc
      rw [← h] at this
      exact absurd this (by decide)
    have hkey : (out.map (fun a => (soundPath a.disc, Content.buffer a.file.bytes))).filter
        (fun e => decide (e.1 = soundPath a.disc)) =
        [(soundPath a.disc, Content.buffer a.file.bytes)] := by
      have hnd' : ((out.map (fun a => (soundPath a.disc,
          Content.buffer a.file.bytes))).map Prod.fst).Nodup := by
        rw [List.map_map]
        have : (Prod.fst ∘ fun a : Assignment =>
            (soundPath a.disc, Content.buffer a.file.bytes)) = soundPath ∘ Assignment.disc := rfl
        rw [this, ← List.map_map]
        exact hnd.map (fun _ _ h => soundPath_injective h)
      exact filter_key_eq_singleton Prod.fst _
        (soundPath a.disc, Content.buffer a.file.bytes) hnd' (List.mem_map_of_mem _ ha)
    rw [hkey]
    simp [List.filter_cons, hman]
  · rw [hfilter, List.length_map]

/-- Two tracks of 200 s and 100 s with a custom icon: the archive holds one sound entry
per assignment. -/
theorem crearMod_sound_entries_witness :
    [File.mk "a.ogg" [79, 103], File.mk "b.ogg" [83]] ≠ [] ∧
    ∃ zip : Zip,
      crearMod (fun f => some (100 * (f.bytes.length : ℚ)))
        [File.mk "a.ogg" [79, 103], File.mk "b.ogg" [83]] "pack" "desc" (some 1) none none
        (some [137, 80]) "u1" "u2" = some zip ∧
      zip.filter (fun e => inRecordsFolder e.1) =
        [("sounds/music/game/records/relic.ogg", Content.buffer [79, 103]),
         ("sounds/music/game/records/lava_chicken.ogg", Content.buffer [83])] ∧
      (∀ a ∈ [Assignment.mk (File.mk "a.ogg" [79, 103]) "relic" 200 (some 219) (some 19),
              Assignment.mk (File.mk "b.ogg" [83]) "lava_chicken" 100 (some 135) (some 35)],
        zip.filter (fun e => decide (e.1 = soundPath a.disc)) =
          [(soundPath a.disc, Content.buffer a.file.bytes)]) ∧
      (zip.filter (fun e => inRecordsFolder e.1)).length = 2 :=
  ⟨by decide,
    crearMod_sound_entries (fun f => some (100 * (f.bytes.length : ℚ)))
      [File.mk "a.ogg" [79, 103], File.mk "b.ogg" [83]] "pack" "desc" (some 1) none none
      (some [137, 80]) "u1" "u2"
      [Assignment.mk (File.mk "a.ogg" [79, 103]) "relic" 200 (some 219) (some 19),
       Assignment.mk (File.mk "b.ogg" [83]) "lava_chicken" 100 (some 135) (some 35)]
      (by decide) (by decide!)⟩

/-- C8: for a source image of positive width `w` and height `h`, in exact rational
arithmetic, the numbers computed are `scale = max(1080/w, 1080/h)`, scaled sides
`w * scale` and `h * scale` (one factor for both axes, so the aspect ratio is kept) and
offsets `(1080 - scaled side) / 2` (the scaled image is centred on the canvas).  Both
scaled dimensions are at least 1080 and one of them equals 1080, both offsets are at
most 0, and the drawn rectangle reaches from at most 0 to at least 1080 on both axes, so
it contains the whole canvas.  For a 1080 by 1080 source the scale is 1 and both offsets
are 0. -/
theorem coverFit_covers (width height : Nat) (hw : 0 < width) (hh : 0 < height) :
    (coverFit width height).scale = max (1080 / (width : ℚ)) (1080 / (height : ℚ)) ∧
    (coverFit width height).scaledWidth =
      (width : ℚ) * max (1080 / (width : ℚ)) (1080 / (height : ℚ)) ∧
    (coverFit width height).scaledHeight =
      (height : ℚ) * max (1080 / (width : ℚ)) (1080 / (height : ℚ)) ∧
    (coverFit width height).offsetX =
      (1080 - (width : ℚ) * max (1080 / (width : ℚ)) (1080 / (height : ℚ))) / 2 ∧
    (coverFit width height).offsetY =
      (1080 - (height : ℚ) * max (1080 / (width : ℚ)) (1080 / (height : ℚ))) / 2 ∧
    (coverFit width height).scaledWidth * (height : ℚ) =
      (coverFit width height).scaledHeight * (width : ℚ) ∧
    (coverFit width height).offsetX + (coverFit width height).scaledWidth / 2 = 540 ∧
    (coverFit width height).offsetY + (coverFit width height).scaledHeight / 2 = 540 ∧
    1080 ≤ (coverFit width height).scaledWidth ∧
    1080 ≤ (coverFit width height).scaledHeight ∧
    ((coverFit width height).scaledWidth = 1080 ∨
      (coverFit width height).scaledHeight = 1080) ∧
    (coverFit width height).offsetX ≤ 0 ∧
    (coverFit width height).offsetY ≤ 0 ∧
    1080 ≤ (coverFit width height).offsetX + (coverFit width height).scaledWidth ∧
    1080 ≤ (coverFit width height).offsetY + (coverFit width height).scaledHeight ∧
    (coverFit 1080 1080).scale = 1 ∧
    (coverFit 1080 1080).scaledWidth = 1080 ∧
    (coverFit 1080 1080).scaledHeight = 1080 ∧
    (coverFit 1080 1080).offsetX = 0 ∧
    (coverFit 1080 1080).offsetY = 0 := by
  have hw' : (0 : ℚ) < (width : ℚ) := by exact_mod_cast hw
  have hh' : (0 : ℚ) < (height : ℚ) := by exact_mod_cast hh
  have h1 : (width : ℚ) * (1080 / (width : ℚ)) = 1080 := by field_simp
  have h2 : (height : ℚ) * (1080 / (height : ℚ)) = 1080 := by field_simp
  have hsw : 1080 ≤ (width : ℚ) * max (1080 / (width : ℚ)) (1080 / (height : ℚ)) := by
    calc (1080 : ℚ) = (width : ℚ) * (1080 / (width : ℚ)) := h1.symm
      _ ≤ (width : ℚ) * max (1080 / (width : ℚ)) (1080 / (height : ℚ)) :=
        mul_le_mul_of_nonneg_left (le_max_left _ _) (le_of_lt hw')
  have hsh : 1080 ≤ (height : ℚ) * max (1080 / (width : ℚ)) (1080 / (height : ℚ)) := by
    calc (1080 : ℚ) = (height : ℚ) * (1080 / (height : ℚ)) := h2.symm
      _ ≤ (height : ℚ) * max (1080 / (width : ℚ)) (1080 / (height : ℚ)) :=
        mul_le_mul_of_nonneg_left (le_max_right _ _) (le_of_lt hh')
  have heq : (width : ℚ) * max (1080 / (width : ℚ)) (1080 / (height : ℚ)) = 1080 ∨
      (height : ℚ) * max (1080 / (width : ℚ)) (1080 / (height : ℚ)) = 1080 := by
    rcases le_total (1080 / (width : ℚ)) (1080 / (height : ℚ)) with hle | hle
    · right; rw [max_eq_right hle, h2]
    · left; rw [max_eq_left hle, h1]
  simp only [coverFit, TARGET_SIZE]
  refine ⟨trivial, trivial, trivial, trivial, trivial, by ring, by ring, by ring, hsw, hsh,
    heq, by linarith,
    by linarith, by linarith, by linarith, ?_, ?_, ?_, ?_, ?_⟩
    <;> norm_num

/-- A 1920 by 1080 source: the scale is 1, the height fits exactly and the width
overflows by 420 on each side. -/
theorem coverFit_covers_witness :
    0 < 1920 ∧ 0 < 1080 ∧
    coverFit 1920 1080 =
      { scale := 1, scaledWidth := 1920, scaledHeight := 1080, offsetX := -420,
        offsetY := 0 } ∧
    (coverFit 1920 1080).scale = max (1080 / ((1920 : Nat) : ℚ)) (1080 / ((1080 : Nat) : ℚ)) ∧
    (coverFit 1920 1080).scaledWidth =
      ((1920 : Nat) : ℚ) * max (1080 / ((1920 : Nat) : ℚ)) (1080 / ((1080 : Nat) : ℚ)) ∧
    (coverFit 1920 1080).scaledHeight =
      ((1080 : Nat) : ℚ) * max (1080 / ((1920 : Nat) : ℚ)) (1080 / ((1080 : Nat) : ℚ)) ∧
    (coverFit 1920 1080).offsetX =
      (1080 - ((1920 : Nat) : ℚ) *
        max (1080 / ((1920 : Nat) : ℚ)) (1080 / ((1080 : Nat) : ℚ))) / 2 ∧
    (coverFit 1920 1080).offsetY =
      (1080 - ((1080 : Nat) : ℚ) *
        max (1080 / ((1920 : Nat) : ℚ)) (1080 / ((1080 : Nat) : ℚ))) / 2 ∧
    (coverFit 1920 1080).scaledWidth * ((1080 : Nat) : ℚ) =
      (coverFit 1920 1080).scaledHeight * ((1920 : Nat) : ℚ) ∧
    (coverFit 1920 1080).offsetX + (coverFit 1920 1080).scaledWidth / 2 = 540 ∧
    (coverFit 1920 1080).offsetY + (coverFit 1920 1080).scaledHeight / 2 = 540 ∧
    1080 ≤ (coverFit 1920 1080).scaledWidth ∧
    1080 ≤ (coverFit 1920 1080).scaledHeight ∧
    ((coverFit 1920 1080).scaledWidth = 1080 ∨ (coverFit 1920 1080).scaledHeight = 1080) ∧
    (coverFit 1920 1080).offsetX ≤ 0 ∧
    (coverFit 1920 1080).offsetY ≤ 0 ∧
    1080 ≤ (coverFit 1920 1080).offsetX + (coverFit 1920 1080).scaledWidth ∧
    1080 ≤ (coverFit 1920 1080).offsetY + (coverFit 1920 1080).scaledHeight ∧
    (coverFit 1080 1080).scale = 1 ∧
    (coverFit 1080 1080).scaledWidth = 1080 ∧
    (coverFit 1080 1080).scaledHeight = 1080 ∧
    (coverFit 1080 1080).offsetX = 0 ∧
    (coverFit 1080 1080).offsetY = 0 :=
  ⟨by decide, by decide, by decide!, coverFit_covers 1920 1080 (by decide) (by decide)⟩

/-- C9: if at least one probe of the batch fails, `assignDiscsOptimal` fails as a whole,
whatever the other probes returned, and the preview built from it shows no assignment;
if every probe succeeds it returns a list. -/
theorem assignDiscsOptimal_fail_fast (getAudioDuration : File → Option ℚ)
    (files : List File) :
    ((∃ f ∈ files, getAudioDuration f = none) →
      assignDiscsOptimal getAudioDuration files = none ∧
      ∀ st : PageState, st.currentFiles = files →
        (updateFileList getAudioDuration st).previewList = []) ∧
    ((∀ f ∈ files, ∃ d, getAudioDuration f = some d) →
      ∃ out, assignDiscsOptimal getAudioDuration files = some out) := by
  constructor
  · intro hfail
    have hnone := assignDiscsOptimal_of_fail getAudioDuration files hfail
    refine ⟨hnone, ?_⟩
    intro st hst
    subst hst
    unfold updateFileList
    split
    · rfl
    · rw [hnone]
  · intro hall
    obtain ⟨fds, hp, _⟩ := probeAll_of_all getAudioDuration files hall
    exact ⟨assignResolved fds, assignDiscsOptimal_of_probeAll _ _ _ hp⟩

/-- Three tracks, the second of which cannot be probed: the call fails and nothing is
shown for any of the three. -/
theorem assignDiscsOptimal_fail_fast_witness :
    (∃ f ∈ [File.mk "a.ogg" [79], File.mk "bad.ogg" [], File.mk "c.ogg" [79, 103]],
      (fun f : File => if f.bytes = [] then none else some (120 : ℚ)) f = none) ∧
    assignDiscsOptimal (fun f : File => if f.bytes = [] then none else some (120 : ℚ))
      [File.mk "a.ogg" [79], File.mk "bad.ogg" [], File.mk "c.ogg" [79, 103]] = none ∧
    ∀ st : PageState,
      st.currentFiles = [File.mk "a.ogg" [79], File.mk "bad.ogg" [], File.mk "c.ogg" [79, 103]] →
      (updateFileList (fun f : File => if f.bytes = [] then none else some (120 : ℚ))
        st).previewList = [] :=
  ⟨⟨File.mk "bad.ogg" [], by decide, rfl⟩,
    (assignDiscsOptimal_fail_fast
      (fun f : File => if f.bytes = [] then none else some (120 : ℚ))
      [File.mk "a.ogg" [79], File.mk "bad.ogg" [], File.mk "c.ogg" [79, 103]]).1
      ⟨File.mk "bad.ogg" [], by decide, rfl⟩⟩

/-- C10 fails as stated: uploading one file whose probe fails onto an empty track list
leaves that file in `state.currentFiles`. -/
theorem handleOggUpload_not_atomic :
    (fun _ : File => (none : Option ℚ)) (File.mk "bad.ogg" [0]) = none ∧
    (handleOggUpload (fun _ => none)
      { currentFiles := [], previewList := [], errorShown := false }
      [File.mk "bad.ogg" [0]]).currentFiles = [File.mk "bad.ogg" [0]] ∧
    (handleOggUpload (fun _ => none)
      { currentFiles := [], previewList := [], errorShown := false }
      [File.mk "bad.ogg" [0]]).currentFiles ≠
      ({ currentFiles := [], previewList := [], errorShown := false } : PageState).currentFiles := by
  refine ⟨rfl, by decide!, by decide!⟩

/-- C10, amended: whatever the probes return, after `handleOggUpload` the track list is
the list before it followed by the accepted files, so the earlier tracks are kept
unchanged and in order; when the probe of some track of the new list fails, the preview
is empty and the error message is shown. -/
theorem handleOggUpload_currentFiles (getAudioDuration : File → Option ℚ) (st : PageState)
    (selected : List File) :
    (handleOggUpload getAudioDuration st selected).currentFiles =
      st.currentFiles ++ acceptedFiles st.currentFiles selected ∧
    ((∃ f ∈ st.currentFiles ++ acceptedFiles st.currentFiles selected,
        getAudioDuration f = none) →
      (handleOggUpload getAudioDuration st selected).previewList = [] ∧
      (handleOggUpload getAudioDuration st selected).errorShown = true) := by
  constructor
  · unfold handleOggUpload updateFileList
    split
    · rfl
    · split <;> rfl
  · intro hfail
    have hnone := assignDiscsOptimal_of_fail getAudioDuration _ hfail
    have hlen : (st.currentFiles ++ acceptedFiles st.currentFiles selected).length ≠ 0 := by
      obtain ⟨f, hf, _⟩ := hfail
      exact Nat.pos_iff_ne_zero.1 (List.length_pos_of_mem hf)
    unfold handleOggUpload updateFileList
    simp only [hlen, if_false, hnone]
    exact ⟨trivial, trivial⟩

/-- One good track in the list, one unreadable file uploaded: the file is added all the
same, the preview is emptied and the error is shown. -/
theorem handleOggUpload_currentFiles_witness :
    (∃ f ∈ [File.mk "ok.ogg" [79]] ++ acceptedFiles [File.mk "ok.ogg" [79]]
        [File.mk "bad.ogg" []],
      (fun f : File => if f.bytes = [] then none else some (120 : ℚ)) f = none) ∧
    (handleOggUpload (fun f : File => if f.bytes = [] then none else some (120 : ℚ))
      { currentFiles := [File.mk "ok.ogg" [79]], previewList := [], errorShown := false }
      [File.mk "bad.ogg" []]).currentFiles =
      [File.mk "ok.ogg" [79]] ++ acceptedFiles [File.mk "ok.ogg" [79]] [File.mk "bad.ogg" []] ∧
    (handleOggUpload (fun f : File => if f.bytes = [] then none else some (120 : ℚ))
      { currentFiles := [File.mk "ok.ogg" [79]], previewList := [], errorShown := false }
      [File.mk "bad.ogg" []]).previewList = [] ∧
    (handleOggUpload (fun f : File => if f.bytes = [] then none else some (120 : ℚ))
      { currentFiles := [File.mk "ok.ogg" [79]], previewList := [], errorShown := false }
      [File.mk "bad.ogg" []]).errorShown = true := by
  have hfail : ∃ f ∈ [File.mk "ok.ogg" [79]] ++ acceptedFiles [File.mk "ok.ogg" [79]]
      [File.mk "bad.ogg" []],
      (fun f : File => if f.bytes = [] then none else some (120 : ℚ)) f = none :=
    ⟨File.mk "bad.ogg" [], by decide, rfl⟩
  have h := handleOggUpload_currentFiles
    (fun f : File => if f.bytes = [] then none else some (120 : ℚ))
    { currentFiles := [File.mk "ok.ogg" [79]], previewList := [], errorShown := false }
    [File.mk "bad.ogg" []]
  exact ⟨hfail, h.1, (h.2 hfail).1, (h.2 hfail).2⟩

/-- C11: after every sequence of `addFiles`, `removeFile`, `cleanupAudioUrl`,
`getOrCreateAudioUrl`, `setSelectedIcon` and `cleanup` calls on a fresh `AppState`, with
`URL.createObjectURL` returning a fresh handle: no handle has been released twice and no
released handle is live; every URL the state holds is live; no track has two live
handles and the icon has at most one; a track removed by `removeFile` has no live handle
afterwards; and after `cleanup()` no handle is live. -/
theorem appState_handle_lifecycle {α : Type} [DecidableEq α] (calls : List (Call α)) :
    (Session.run calls).urls.released.Nodup ∧
    (∀ h ∈ (Session.run calls).urls.released, ∀ e ∈ (Session.run calls).urls.live, e.1 ≠ h) ∧
    (∀ f h, (f, h) ∈ (Session.run calls).state.audioUrls →
      (h, Asset.track f) ∈ (Session.run calls).urls.live) ∧
    (∀ f h, (Session.run calls).state.selectedIcon = some (f, h) →
      (h, Asset.icon f) ∈ (Session.run calls).urls.live) ∧
    (∀ f h₁ h₂, (h₁, Asset.track f) ∈ (Session.run calls).urls.live →
      (h₂, Asset.track f) ∈ (Session.run calls).urls.live → h₁ = h₂) ∧
    (∀ f₁ f₂ h₁ h₂, (h₁, Asset.icon f₁) ∈ (Session.run calls).urls.live →
      (h₂, Asset.icon f₂) ∈ (Session.run calls).urls.live → h₁ = h₂) ∧
    (∀ index f, (Session.run calls).state.currentFiles[index]? = some f →
      ∀ h, (h, Asset.track f) ∉ ((Session.run calls).removeFile index).urls.live) ∧
    ((Session.run calls).cleanup).urls.live = [] := by
  have hinv := Session.inv_run calls
  obtain ⟨hok, hlink, hkeys⟩ := hinv
  refine ⟨hok.2.2.2.1, hok.2.2.1, ?_, ?_, ?_, ?_, ?_, ?_⟩
  · intro f h hm
    exact (hlink h _).2 (Or.inl ⟨f, rfl, hm⟩)
  · intro f h hm
    exact (hlink h _).2 (Or.inr ⟨f, rfl, hm⟩)
  · intro f h₁ h₂ hl₁ hl₂
    rcases (hlink h₁ _).1 hl₁ with ⟨g₁, hg₁, hm₁⟩ | ⟨g₁, hg₁, _⟩
    · rcases (hlink h₂ _).1 hl₂ with ⟨g₂, hg₂, hm₂⟩ | ⟨g₂, hg₂, _⟩
      · cases hg₁
        cases hg₂
        exact (Prod.mk.inj (List.inj_on_of_nodup_map hkeys hm₁ hm₂ rfl)).2
      · cases hg₂
    · cases hg₁
  · intro f₁ f₂ h₁ h₂ hl₁ hl₂
    rcases (hlink h₁ _).1 hl₁ with ⟨g₁, hg₁, _⟩ | ⟨g₁, _, hs₁⟩
    · cases hg₁
    · rcases (hlink h₂ _).1 hl₂ with ⟨g₂, hg₂, _⟩ | ⟨g₂, _, hs₂⟩
      · cases hg₂
      · rw [hs₁] at hs₂
        exact (Prod.mk.inj (Option.some.inj hs₂)).2
  · intro index f hf h hl
    have hinv' := (Session.run calls).inv_removeFile index ⟨hok, hlink, hkeys⟩
    rcases (hinv'.2.1 h _).1 hl with ⟨g, hg, hm⟩ | ⟨g, hg, _⟩
    · cases hg
      have hm' : (f, h) ∈ ((Session.run calls).cleanupAudioUrl f).state.audioUrls := by
        simpa only [Session.removeFile, hf] using hm
      exact (Session.run calls).cleanupAudioUrl_no_key f _ hm' rfl
    · cases hg
  · exact ((Session.run calls).inv_cleanup ⟨hok, hlink, hkeys⟩).2

/-- Two tracks with preview URLs and an icon: the first track has a live handle, and
none once it is removed. -/
theorem appState_handle_lifecycle_witness :
    (Session.run [Call.addFiles [File.mk "a.ogg" [79], File.mk "b.ogg" [83]],
      Call.getOrCreateAudioUrl (File.mk "a.ogg" [79]),
      Call.getOrCreateAudioUrl (File.mk "b.ogg" [83]),
      Call.setSelectedIcon (some (File.mk "icon.png" [137]))]).state.currentFiles[0]? =
      some (File.mk "a.ogg" [79]) ∧
    (0, Asset.track (File.mk "a.ogg" [79])) ∈
      (Session.run [Call.addFiles [File.mk "a.ogg" [79], File.mk "b.ogg" [83]],
        Call.getOrCreateAudioUrl (File.mk "a.ogg" [79]),
        Call.getOrCreateAudioUrl (File.mk "b.ogg" [83]),
        Call.setSelectedIcon (some (File.mk "icon.png" [137]))]).urls.live ∧
    ∀ h, (h, Asset.track (File.mk "a.ogg" [79])) ∉
      ((Session.run [Call.addFiles [File.mk "a.ogg" [79], File.mk "b.ogg" [83]],
        Call.getOrCreateAudioUrl (File.mk "a.ogg" [79]),
        Call.getOrCreateAudioUrl (File.mk "b.ogg" [83]),
        Call.setSelectedIcon (some (File.mk "icon.png" [137]))]).removeFile 0).urls.live :=
  ⟨by decide, by decide,
    (appState_handle_lifecycle
      [Call.addFiles [File.mk "a.ogg" [79], File.mk "b.ogg" [83]],
        Call.getOrCreateAudioUrl (File.mk "a.ogg" [79]),
        Call.getOrCreateAudioUrl (File.mk "b.ogg" [83]),
        Call.setSelectedIcon (some (File.mk "icon.png" [137]))]).2.2.2.2.2.2.1 0
      (File.mk "a.ogg" [79]) (by decide)⟩

/-- C12 fails as stated: "13" and "5" both last 178 s and "cat" and "chirp" both last
185 s, so the durations of the table are not pairwise distinct. -/
theorem disco_durations_tie :
    DISCO_DURATIONS "13" = some 178 ∧ DISCO_DURATIONS "5" = some 178 ∧
    DISCO_DURATIONS "cat" = some 185 ∧ DISCO_DURATIONS "chirp" = some 185 ∧
    ¬ (DISCO_DURATIONS_LITERAL.map Prod.snd).Nodup ∧
    ¬ (availableDiscs.map Disc.duration).Nodup := by
  decide

/-- C12, amended: the 21 durations take 19 values; two discs of equal duration are the
same disc, or "5" and "13" (178 s), or "cat" and "chirp" (185 s).  The sorted list is
still one definite list, non-increasing in duration, in which the tied discs keep their
`Object.entries` order: "cat" before "chirp" and "5" before "13". -/
theorem disco_durations_ties_only :
    availableDiscs.length = 21 ∧
    (availableDiscs.map Disc.duration).dedup.length = 19 ∧
    (∀ a ∈ availableDiscs, ∀ b ∈ availableDiscs, a.duration = b.duration →
      a.name = b.name ∨
      (a.duration = 178 ∧ (a.name = "5" ∨ a.name = "13") ∧ (b.name = "5" ∨ b.name = "13")) ∨
      (a.duration = 185 ∧ (a.name = "cat" ∨ a.name = "chirp") ∧
        (b.name = "cat" ∨ b.name = "chirp"))) ∧
    availableDiscs.Pairwise (fun a b => b.duration ≤ a.duration) ∧
    availableDiscs =
      [Disc.mk "blocks" 345, Disc.mk "precipice" 299, Disc.mk "ward" 251,
       Disc.mk "wait" 237, Disc.mk "relic" 219, Disc.mk "mall" 197,
       Disc.mk "otherside" 195, Disc.mk "strad" 188, Disc.mk "cat" 185,
       Disc.mk "chirp" 185, Disc.mk "5" 178, Disc.mk "13" 178, Disc.mk "creator" 176,
       Disc.mk "tears" 175, Disc.mk "far" 174, Disc.mk "stal" 150, Disc.mk "pigstep" 148,
       Disc.mk "lava_chicken" 135, Disc.mk "mellohi" 96, Disc.mk "creator_music_box" 73,
       Disc.mk "11" 71] := by
  refine ⟨by decide, by decide, by decide, by decide, by decide⟩

/-- C14: the greedy result is not a minimum-cost matching.  For two tracks of 300 s and
252 s the result pairs them with "blocks" and "precipice", total difference 92, while
pairing them with "precipice" and "ward", two different discs of the catalog, has total
difference 2. -/
theorem greedy_not_optimal :
    ∃ (getAudioDuration : File → Option ℚ) (files : List File) (fds : List FileDuration)
      (out : List Assignment) (other : List (FileDuration × Disc)),
      probeAll getAudioDuration files = some fds ∧
      assignDiscsOptimal getAudioDuration files = some out ∧
      out.length = files.length ∧
      other.map Prod.fst = fds ∧
      (∀ p ∈ other, p.2 ∈ availableDiscs) ∧
      (other.map (fun p => p.2.name)).Nodup ∧
      totalDifference (other.map (fun p => (p.1.duration, p.2))) <
        totalDifference (assignmentPairs out) := by
  refine ⟨fun f => if f.name = "a.ogg" then some 300 else some 252,
    [File.mk "a.ogg" [79], File.mk "b.ogg" [83]],
    [FileDuration.mk (File.mk "a.ogg" [79]) 300, FileDuration.mk (File.mk "b.ogg" [83]) 252],
    [{ file := File.mk "a.ogg" [79], disc := "blocks", userDuration := 300,
       discDuration := some 345, difference := some 45 },
     { file := File.mk "b.ogg" [83], disc := "precipice", userDuration := 252,
       discDuration := some 299, difference := some 47 }],
    [(FileDuration.mk (File.mk "a.ogg" [79]) 300, Disc.mk "precipice" 299),
     (FileDuration.mk (File.mk "b.ogg" [83]) 252, Disc.mk "ward" 251)],
    by decide!, by decide!, rfl, rfl, by decide, by decide, by decide!⟩

/-- C15 fails on the code.  With the tracks `a.ogg` (100 s) and `b.ogg` (200 s) in this
order, the first preview item shows `b.ogg`, the longer one, and carries index 0; a click
on its remove button removes `a.ogg`, the track at position 0 of the track list, and
leaves `b.ogg` in the list. -/
theorem remove_button_removes_other_track :
    (assignDiscsOptimal (fun f => if f.name = "a.ogg" then some 100 else some 200)
      [File.mk "a.ogg" [79], File.mk "b.ogg" [83]]).map previewItems =
      some [{ assignment := { file := File.mk "b.ogg" [83], disc := "relic",
                              userDuration := 200, discDuration := some 219,
                              difference := some 19 },
              index := 0 },
            { assignment := { file := File.mk "a.ogg" [79], disc := "lava_chicken",
                              userDuration := 100, discDuration := some 135,
                              difference := some 35 },
              index := 1 }] ∧
    (Session.run [Call.addFiles [File.mk "a.ogg" [79], File.mk "b.ogg" [83]]]).state.currentFiles =
      [File.mk "a.ogg" [79], File.mk "b.ogg" [83]] ∧
    (clickRemove (Session.run [Call.addFiles [File.mk "a.ogg" [79], File.mk "b.ogg" [83]]])
      { assignment := { file := File.mk "b.ogg" [83], disc := "relic", userDuration := 200,
                        discDuration := some 219, difference := some 19 },
        index := 0 }).state.currentFiles = [File.mk "b.ogg" [83]] := by
  refine ⟨by decide!, by decide, by decide⟩

/-- C13 fails as stated: a track of 178 s ties on "13" and "5", both unused and both
178 s; "13" is written before "5" in `DISCO_NAMES` and in the `DISCO_DURATIONS` literal,
yet the track is put on "5". -/
theorem tie_not_in_written_order :
    assignDiscsOptimal (fun _ => some 178) [File.mk "t.ogg" [79]] =
      some [{ file := File.mk "t.ogg" [79], disc := "5", userDuration := 178,
              discDuration := some 178, difference := some 0 }] ∧
    DISCO_DURATIONS "13" = some 178 ∧ DISCO_DURATIONS "5" = some 178 ∧
    DISCO_NAMES.indexOf "13" < DISCO_NAMES.indexOf "5" ∧
    (DISCO_DURATIONS_LITERAL.map Prod.fst).indexOf "13" <
      (DISCO_DURATIONS_LITERAL.map Prod.fst).indexOf "5" := by
  refine ⟨by decide!, by decide, by decide, by decide, by decide⟩

/-- C13, amended: the disc chosen for the `k`-th track in processing order is the
first, in the order of `availableDiscs`, among the unused discs of its canonical
duration: no unused disc of the same duration stands before it.  That order is the
`Object.entries` order of the table (array-index keys "5", "11", "13" first, then the
other keys as written) sorted stably by duration descending, so "5" stands before "13"
and "cat" before "chirp". -/
theorem tie_first_in_entries_order (getAudioDuration : File → Option ℚ) (files : List File)
    (fds : List FileDuration) (hp : probeAll getAudioDuration files = some fds)
    (k : Nat) (fd : FileDuration) (hfd : (sortByDurationDesc fds)[k]? = some fd)
    (used : List String)
    (hused : used = ((assignResolved fds).take k).map Assignment.disc)
    (a : Assignment) (ha : (assignResolved fds)[k]? = some a) :
    assignDiscsOptimal getAudioDuration files = some (assignResolved fds) ∧
    (∃ (l₁ : List Disc) (disc : Disc) (l₂ : List Disc),
      availableDiscs = l₁ ++ disc :: l₂ ∧ a.file = fd.file ∧ a.disc = disc.name ∧
      disc.name ∉ used ∧
      ∀ disc' ∈ l₁, disc'.name ∉ used → disc'.duration ≠ disc.duration) ∧
    (objectEntries DISCO_DURATIONS_LITERAL).map Prod.fst =
      ["5", "11", "13", "cat", "blocks", "chirp", "far", "mall", "mellohi", "stal", "strad",
       "ward", "wait", "otherside", "pigstep", "relic", "creator", "creator_music_box",
       "precipice", "tears", "lava_chicken"] ∧
    availableDiscs.map Disc.name =
      ["blocks", "precipice", "ward", "wait", "relic", "mall", "otherside", "strad", "cat",
       "chirp", "5", "13", "creator", "tears", "far", "stal", "pigstep", "lava_chicken",
       "mellohi", "creator_music_box", "11"] := by
  refine ⟨assignDiscsOptimal_of_probeAll _ _ _ hp, ?_, by decide, by decide⟩
  subst hused
  rcases chooseDisc_first availableDiscs
      (((assignResolved fds).take k).map Assignment.disc) fd.duration availableDiscs_ne with
    hnone | ⟨l₁, disc, l₂, hl, hu, hsome, hfirst⟩
  · have := kth_of_none availableDiscs availableDiscs_ne availableDiscs_nodup
      (sortByDurationDesc fds) k fd hfd hnone
    rw [assignResolved, this] at ha
    cases ha
  · have hmem : disc ∈ availableDiscs := by rw [hl]; simp
    have := kth_of_some availableDiscs availableDiscs_ne availableDiscs_nodup
      (sortByDurationDesc fds) k fd hfd disc.name _ (availableDiscs_ne disc hmem) hu hsome
    rw [assignResolved, this] at ha
    have hEq := Option.some.inj ha
    refine ⟨l₁, disc, l₂, hl, ?_, ?_, hu, hfirst⟩
    · rw [← hEq]
    · rw [← hEq]

/-- A track of 178 s with nothing used: it goes to "5", before which `availableDiscs`
holds no disc of 178 s; "13" comes right after it. -/
theorem tie_first_in_entries_order_witness :
    ∃ (l₁ : List Disc) (disc : Disc) (l₂ : List Disc),
      availableDiscs = l₁ ++ disc :: l₂ ∧
      (Assignment.mk (File.mk "t.ogg" [79]) "5" 178 (some 178) (some 0)).file =
        File.mk "t.ogg" [79] ∧
      "5" = disc.name ∧ disc.name ∉ ([] : List String) ∧
      ∀ disc' ∈ l₁, disc'.name ∉ ([] : List String) → disc'.duration ≠ disc.duration :=
  (tie_first_in_entries_order (fun _ => some 178) [File.mk "t.ogg" [79]]
    [FileDuration.mk (File.mk "t.ogg" [79]) 178] rfl 0
    (FileDuration.mk (File.mk "t.ogg" [79]) 178) rfl [] rfl
    (Assignment.mk (File.mk "t.ogg" [79]) "5" 178 (some 178) (some 0)) (by decide!)).2.1

end Jukebox
